import Mathlib

/-!
Verification development for the USACO-Rating data layer
(`backend/datastore.py`).  The vote ledger, aggregate blocks, median
tracker, snapshot/freshness guard and the numeric solver are embedded
shallowly:

* Python floats are modelled as exact rationals (`ℚ`) in the ledger and
  as real numbers (`ℝ`) for the Elo bisection solver;
* the standard-deviation field `sd_*` written by the code is
  `sqrt variance`; since the code only ever reads it back through
  `sd ** 2` (in `_init_problem_stats`), the model stores the square
  (`sdsq` = variance) so that the ledger stays executable over `ℚ`;
* `time.time()` timestamps and file modification times enter as explicit
  parameters; the store file is modelled by a `ProcState` holding the
  in-memory `DataStore`, the on-disk snapshot and the two mtimes;
* Python `or` on numeric optionals (falsy `0.0`/`None`) is modelled by
  `orFalsy`;
* `int(...)` conversions that can raise are modelled by `Option Int`
  inputs (`none` = not convertible).
-/

namespace USACO

/-- The four aggregated metrics, as in `PROBLEM_STATS_SPECS`. -/
inductive Metric
  | overall
  | thinking
  | implementation
  | quality
deriving DecidableEq, Repr, Fintype

/-- The persisted per-problem summary triple for one metric: the
`cnt_* / avg_* / sd_*` keys of a problem dict.  `sdsq` is the square of
the stored `sd_*` value (the variance). -/
structure MetricField where
  cnt : Int
  avg : Option ℚ
  sdsq : Option ℚ
deriving DecidableEq, Repr

/-- One Aggregate Block: the count/sum/sum_sq entry kept under a
problem's `_stats` for one metric. -/
structure Block where
  count : Int
  sum : ℚ
  sum_sq : ℚ
deriving DecidableEq, Repr

/-- A vote row of `store["votes"]`, after the normalisation performed by
`_load_store` (all numeric fields parsed). -/
structure Vote where
  id : Int
  user_id : Int
  problem_id : Int
  thinking : Option ℚ
  implementation : Option ℚ
  overall : Option ℚ
  difficulty : Option ℚ
  quality : Option ℚ
  comment : String
  public : Bool
  deleted : Bool
  accepted : Bool
  score : Int
  created_at : Int
  updated_at : Int
deriving DecidableEq, Repr

/-- A report row of `store["reports"]`. -/
structure Report where
  id : Int
  vote_id : Int
  user_id : Int
  reporter_id : Int
  target_user_id : Option Int
  created_at : Int
deriving DecidableEq, Repr

/-- The persisted snapshot (`store.json`), restricted to the collections
the rating core reads and writes. -/
structure Store where
  votes : List Vote
  reports : List Report
  next_vote_id : Int
  next_report_id : Int
deriving DecidableEq, Repr

/-- An in-memory problem (an entry of `problem_map`): the summary fields
per metric, the `_stats` blocks, and the median fields.  The field names
`cnt1 / avg_difficulty / sd_difficulty` etc. of the source correspond to
`fieldOf p .overall` through `PROBLEM_STATS_SPECS`. -/
structure Problem where
  id : Int
  overallF : MetricField
  thinkingF : MetricField
  implementationF : MetricField
  qualityF : MetricField
  overallB : Block
  thinkingB : Block
  implementationB : Block
  qualityB : Block
  median_thinking : Option ℚ
  median_implementation : Option ℚ
  medium_difficulty : Option ℚ
  medium_quality : Option ℚ
deriving DecidableEq, Repr

/-- The in-memory `DataStore` state relevant to the rating core:
`problem_map` plus `self.store`. -/
structure DataStore where
  problems : List Problem
  store : Store
deriving DecidableEq, Repr

/-- Project the summary field for a metric out of a problem. -/
def fieldOf (p : Problem) : Metric → MetricField
  | .overall => p.overallF
  | .thinking => p.thinkingF
  | .implementation => p.implementationF
  | .quality => p.qualityF

/-- Project the Aggregate Block for a metric out of a problem. -/
def blockOf (p : Problem) : Metric → Block
  | .overall => p.overallB
  | .thinking => p.thinkingB
  | .implementation => p.implementationB
  | .quality => p.qualityB

/-- The metric value a vote carries, as read by `_rebuild_problem_stats`
and `_update_problem_medians` (plain dictionary access, no fallback). -/
def metricValue (v : Vote) : Metric → Option ℚ
  | .overall => v.overall
  | .thinking => v.thinking
  | .implementation => v.implementation
  | .quality => v.quality

/-- Python `a or b` on optional numbers: `None` and `0.0` are falsy. -/
def orFalsy (a b : Option ℚ) : Option ℚ :=
  match a with
  | none => b
  | some x => if x = 0 then b else some x

/-- `_median`: sort, take the middle element (odd length) or the mean of
the two middle elements (even length). -/
def median (values : List ℚ) : Option ℚ :=
  if values.isEmpty then none
  else
    let sorted_vals := values.mergeSort (fun a b => decide (a ≤ b))
    let n := sorted_vals.length
    let mid := n / 2
    if n % 2 = 1 then some (sorted_vals.getD mid 0)
    else some ((sorted_vals.getD (mid - 1) 0 + sorted_vals.getD mid 0) / 2)

/-- The `update_metric` closure of `_adjust_problem_stats`: one add or
remove of a metric value against the block, refreshing the problem's
summary field.  A `none` value is a no-op. -/
def update_metric (remove : Bool) (value : Option ℚ) (st : MetricField × Block) :
    MetricField × Block :=
  match value with
  | none => st
  | some v =>
    let blk : Block :=
      if remove then
        let c := max 0 (st.2.count - 1)
        if c ≤ 0 then
          { count := c, sum := 0, sum_sq := 0 }
        else
          { count := c, sum := st.2.sum - v, sum_sq := st.2.sum_sq - v ^ 2 }
      else
        { count := st.2.count + 1, sum := st.2.sum + v, sum_sq := st.2.sum_sq + v ^ 2 }
    let blk : Block := { blk with sum_sq := max 0 blk.sum_sq }
    if blk.count ≤ 0 then
      ({ cnt := 0, avg := none, sdsq := none }, { blk with sum := 0, sum_sq := 0 })
    else
      let avg := blk.sum / (blk.count : ℚ)
      let variance := max 0 (blk.sum_sq / (blk.count : ℚ) - avg ^ 2)
      ({ cnt := blk.count, avg := some avg, sdsq := some variance }, blk)

/-- Apply `update_metric` for the four metrics in source order
(thinking, implementation, overall, quality). -/
def adjustProblem (p : Problem)
    (thinking implementation overall quality : Option ℚ) (remove : Bool) : Problem :=
  let t := update_metric remove thinking (p.thinkingF, p.thinkingB)
  let i := update_metric remove implementation (p.implementationF, p.implementationB)
  let o := update_metric remove overall (p.overallF, p.overallB)
  let q := update_metric remove quality (p.qualityF, p.qualityB)
  { p with
    thinkingF := t.1, thinkingB := t.2,
    implementationF := i.1, implementationB := i.2,
    overallF := o.1, overallB := o.2,
    qualityF := q.1, qualityB := q.2 }

/-- `_update_problem_medians`: recompute all four medians of a problem
from the non-deleted votes currently in the store. -/
def update_problem_medians (ds : DataStore) (problem_id : Int) : DataStore :=
  match ds.problems.find? (fun p => p.id == problem_id) with
  | none => ds
  | some _ =>
    let votes := ds.store.votes.filter fun v => v.problem_id == problem_id && !v.deleted
    let problems := ds.problems.map fun p =>
      if p.id == problem_id then
        if votes.isEmpty then
          { p with median_thinking := none, median_implementation := none,
                   medium_difficulty := none, medium_quality := none }
        else
          { p with
            median_thinking := median (votes.filterMap (fun v => v.thinking)),
            median_implementation := median (votes.filterMap (fun v => v.implementation)),
            medium_difficulty := median (votes.filterMap (fun v => v.overall)),
            medium_quality := median (votes.filterMap (fun v => v.quality)) }
      else p
    { ds with problems := problems }

/-- `_adjust_problem_stats`: update the four blocks of the target problem
then recompute its medians.  A missing problem is a no-op. -/
def adjust_problem_stats (ds : DataStore) (problem_id : Int)
    (thinking implementation overall quality : Option ℚ) (remove : Bool) : DataStore :=
  match ds.problems.find? (fun p => p.id == problem_id) with
  | none => ds
  | some _ =>
    let problems := ds.problems.map fun p =>
      if p.id == problem_id then adjustProblem p thinking implementation overall quality remove
      else p
    update_problem_medians { ds with problems := problems } problem_id

/-- `_init_problem_stats` for one metric: reverse-engineer the block from
the persisted `cnt / avg / sd` triple (`sum = avg*cnt`,
`sum_sq = (sd² + avg²)*cnt`), zeroing the reported fields when the count
is not positive.  Note the block keeps the raw count. -/
def init_metric (fld : MetricField) : MetricField × Block :=
  let count := fld.cnt
  let avg := fld.avg.getD 0
  let sdsq := fld.sdsq.getD 0
  let sum_val := avg * (count : ℚ)
  let sum_sq := if count = 0 then 0 else (sdsq + avg ^ 2) * (count : ℚ)
  let blk : Block := { count := count, sum := sum_val, sum_sq := sum_sq }
  if count ≤ 0 then ({ cnt := 0, avg := none, sdsq := none }, blk)
  else ({ cnt := count, avg := some avg, sdsq := some sdsq }, blk)

/-- `_init_problem_stats` applied to a whole problem. -/
def init_problem_stats (p : Problem) : Problem :=
  let o := init_metric p.overallF
  let t := init_metric p.thinkingF
  let i := init_metric p.implementationF
  let q := init_metric p.qualityF
  { p with
    overallF := o.1, overallB := o.2,
    thinkingF := t.1, thinkingB := t.2,
    implementationF := i.1, implementationB := i.2,
    qualityF := q.1, qualityB := q.2 }

/-- `_reset_problem_stats`: re-init every problem's blocks from its
current summary fields and blank the medians. -/
def reset_problem_stats (ds : DataStore) : DataStore :=
  { ds with problems := ds.problems.map fun p =>
      { init_problem_stats p with
        median_thinking := none, median_implementation := none,
        medium_difficulty := none, medium_quality := none } }

/-- `_rebuild_problem_stats`: reset, then replay every non-deleted vote
with a truthy problem id through `_adjust_problem_stats`. -/
def rebuild_problem_stats (ds : DataStore) : DataStore :=
  (reset_problem_stats ds).store.votes.foldl
    (fun acc vote =>
      if vote.deleted then acc
      else if vote.problem_id = 0 then acc
      else adjust_problem_stats acc vote.problem_id
             vote.thinking vote.implementation vote.overall vote.quality false)
    (reset_problem_stats ds)

/-- Replace the first list element satisfying the predicate (the Python
code mutates the first matching dict in place). -/
def updateFirst (pred : Vote → Bool) (f : Vote → Vote) : List Vote → List Vote
  | [] => []
  | x :: xs => if pred x then f x :: xs else x :: updateFirst pred f xs

/-- `upsert_vote` (persistence aside).  `calcOv` stands for
`_calc_overall`, whose numeric output the ledger treats as opaque; the
solver itself is modelled separately over `ℝ`.  `timestamp` is
`_now_ts()`. -/
def upsert_vote (calcOv : ℚ → ℚ → ℚ) (ds : DataStore)
    (user_id problem_id : Int) (thinking implementation : ℚ) (quality : Option ℚ)
    (comment : String) (make_public : Bool) (timestamp : Int) : DataStore × Vote :=
  let pairPred := fun (v : Vote) => v.user_id == user_id && v.problem_id == problem_id
  let overall_val := calcOv thinking implementation
  match ds.store.votes.find? pairPred with
  | some existing =>
    let ds := adjust_problem_stats ds problem_id
      existing.thinking existing.implementation
      (orFalsy existing.overall existing.difficulty) existing.quality true
    let updated : Vote :=
      { existing with
        thinking := some thinking, implementation := some implementation,
        overall := some overall_val, difficulty := some overall_val,
        quality := quality, comment := comment, public := make_public,
        deleted := false, accepted := true, score := existing.score,
        updated_at := timestamp }
    let ds := { ds with store.votes := updateFirst pairPred (fun _ => updated) ds.store.votes }
    let ds := adjust_problem_stats ds problem_id
      (some thinking) (some implementation) (some overall_val) quality false
    (ds, updated)
  | none =>
    let vote : Vote :=
      { id := ds.store.next_vote_id, user_id := user_id, problem_id := problem_id,
        thinking := some thinking, implementation := some implementation,
        overall := some overall_val, difficulty := some overall_val,
        quality := quality, comment := comment, public := make_public,
        deleted := false, accepted := true, score := 0,
        created_at := timestamp, updated_at := timestamp }
    let store1 := { ds.store with next_vote_id := ds.store.next_vote_id + 1 }
    let ds := { ds with store := { store1 with votes := store1.votes ++ [vote] } }
    let ds := adjust_problem_stats ds problem_id
      (some thinking) (some implementation) (some overall_val) quality false
    (ds, vote)

/-- The loop of `_remove_votes_matching`: partition the votes, recording
removed ids, and reverse each removed non-deleted vote's contribution.
The stat adjustments run while `store["votes"]` still holds the original
list (it is replaced only after the loop). -/
def removeLoop (pred : Vote → Bool) :
    DataStore → List Vote → List Vote → List Int → Int →
    DataStore × List Vote × List Int × Int
  | dsa, [], remaining, removed, cleared => (dsa, remaining, removed, cleared)
  | dsa, vote :: rest, remaining, removed, cleared =>
    if pred vote then
      let removed := removed ++ [vote.id]
      if vote.deleted then removeLoop pred dsa rest remaining removed cleared
      else
        removeLoop pred
          (adjust_problem_stats dsa vote.problem_id
            vote.thinking vote.implementation
            (orFalsy vote.overall vote.difficulty) vote.quality true)
          rest remaining removed (cleared + 1)
    else removeLoop pred dsa rest (remaining ++ [vote]) removed cleared

/-- `_remove_votes_matching`: returns (state, cleared count, removed vote
ids).  When nothing matched, the store is left untouched; otherwise the
surviving votes are installed and every report whose `vote_id` is among
the removed ids is purged. -/
def remove_votes_matching (ds : DataStore) (pred : Vote → Bool) :
    DataStore × Int × List Int :=
  if ds.store.votes.isEmpty then (ds, 0, [])
  else
    let r := removeLoop pred ds ds.store.votes [] [] 0
    let dsa := r.1
    let remaining := r.2.1
    let removed := r.2.2.1
    let cleared := r.2.2.2
    if removed.isEmpty then (dsa, cleared, removed)
    else
      let store1 := { dsa.store with votes := remaining }
      let store2 :=
        { store1 with reports := store1.reports.filter fun rep => !(removed.contains rep.vote_id) }
      ({ dsa with store := store2 }, cleared, removed)

/-- `mark_vote_deleted`: remove the vote with the given id; true iff
something matched (`bool(removed_ids or cleared)`). -/
def mark_vote_deleted (ds : DataStore) (vote_id : Int) : DataStore × Bool :=
  let r := remove_votes_matching ds (fun v => v.id == vote_id)
  (r.1, !r.2.2.isEmpty || r.2.1 != 0)

/-- `clear_votes_for_user`: remove every vote of the user. -/
def clear_votes_for_user (ds : DataStore) (user_id : Int) : DataStore × Int :=
  let r := remove_votes_matching ds (fun v => v.user_id == user_id)
  (r.1, r.2.1)

/-- `mark_votes_deleted_bulk`: `int(...)`-parse the whole id list; any
failure (a `none` entry) empties the target set, which short-circuits to
a no-op returning 0. -/
def mark_votes_deleted_bulk (ds : DataStore) (vote_ids : List (Option Int)) :
    DataStore × Int :=
  let target_ids : List Int :=
    if vote_ids.all (fun raw => raw.isSome) then vote_ids.filterMap id else []
  if target_ids.isEmpty then (ds, 0)
  else
    let r := remove_votes_matching ds (fun v => target_ids.contains v.id)
    (r.1, r.2.1)

/-- `list_votes_for_problem`: a plain filter over the in-memory votes.
Faithfully, it does NOT call `_ensure_store_fresh`. -/
def list_votes_for_problem (ds : DataStore) (problem_id : Int) : List Vote :=
  ds.store.votes.filter fun v => v.problem_id == problem_id

/-- `get_problem`: a plain lookup in `problem_map` (no freshness check). -/
def get_problem (ds : DataStore) (problem_id : Int) : Option Problem :=
  ds.problems.find? fun p => p.id == problem_id

/-- The body of `find_vote_by_id` after its `_ensure_store_fresh()` call:
parse the id, reject non-positive ids, return the first match. -/
def find_vote_by_id_core (ds : DataStore) (vote_id : Option Int) : Option Vote :=
  match vote_id with
  | none => none
  | some target_id =>
    if target_id ≤ 0 then none
    else ds.store.votes.find? fun v => v.id == target_id

/-- The body of `report_vote` after its `_ensure_store_fresh()` call.
Returns (state, ok, reason). -/
def report_vote_core (ds : DataStore) (vote_id user_id : Option Int) (now : Int) :
    DataStore × Bool × Option String :=
  match vote_id, user_id with
  | some vid, some uid =>
    if vid ≤ 0 || uid ≤ 0 then (ds, false, some "Invalid vote")
    else
      match ds.store.votes.find? (fun v => v.id == vid) with
      | none => (ds, false, some "Vote not found")
      | some vote =>
        if vote.deleted then (ds, false, some "Vote not found")
        else if ds.store.reports.any (fun r => r.vote_id == vid && r.user_id == uid) then
          (ds, false, some "Already reported")
        else
          let report_id := max 1 ds.store.next_report_id
          let target_user_id : Option Int :=
            if vote.user_id = 0 then none else some vote.user_id
          let rep : Report :=
            { id := report_id, vote_id := vid, user_id := uid, reporter_id := uid,
              target_user_id := target_user_id, created_at := now }
          let store1 := { ds.store with next_report_id := report_id + 1 }
          let store2 := { store1 with reports := store1.reports ++ [rep] }
          ({ ds with store := store2 }, true, none)
  | _, _ => (ds, false, some "Invalid vote")

/-! ## Snapshot store and freshness guard

One process's view: the in-memory `DataStore`, the last mtime it
recorded (`self._store_mtime`), and the backing file (contents plus
current mtime; mtime `0` models a missing file).  Wall-clock file mtimes
are modelled by a counter that strictly increases on every write. -/

structure ProcState where
  ds : DataStore
  store_mtime : Nat
  disk : Store
  disk_mtime : Nat
deriving DecidableEq, Repr

/-- `_save_store`: write the snapshot, then record the file's resulting
modification time. -/
def save_store (ps : ProcState) : ProcState :=
  let t := ps.disk_mtime + 1
  { ps with disk := ps.ds.store, disk_mtime := t, store_mtime := t }

/-- `_load_store`, restricted to the collections of the model: adopt the
on-disk snapshot (whose vote/report rows are assumed already in the
normal form that `_load_store`'s normalisation passes establish), keep
the in-memory `problem_map` objects, rebuild all problem statistics, and
record the file mtime. -/
def load_store (ps : ProcState) : ProcState :=
  let ds := rebuild_problem_stats { problems := ps.ds.problems, store := ps.disk }
  { ps with ds := ds, store_mtime := ps.disk_mtime }

/-- `_ensure_store_fresh`: reload when the disk file exists and is newer
than the last-known mtime. -/
def ensure_store_fresh (ps : ProcState) : ProcState :=
  if ps.disk_mtime ≠ 0 ∧ ps.store_mtime < ps.disk_mtime then load_store ps else ps

/-- `_remove_votes_matching` at the process level: the in-memory removal
followed by `_save_store`, which runs only when some vote matched. -/
def remove_votes_matching_proc (ps : ProcState) (pred : Vote → Bool) :
    ProcState × Int × List Int :=
  let r := remove_votes_matching ps.ds pred
  if r.2.2.isEmpty then ({ ps with ds := r.1 }, r.2.1, r.2.2)
  else (save_store { ps with ds := r.1 }, r.2.1, r.2.2)

/-- `mark_vote_deleted` at the process level. -/
def mark_vote_deleted_proc (ps : ProcState) (vote_id : Int) : ProcState × Bool :=
  let r := remove_votes_matching_proc ps (fun v => v.id == vote_id)
  (r.1, !r.2.2.isEmpty || r.2.1 != 0)

/-- `find_vote_by_id`: freshness check first, then the lookup. -/
def find_vote_by_id_proc (ps : ProcState) (vote_id : Option Int) : Option Vote :=
  find_vote_by_id_core (ensure_store_fresh ps).ds vote_id

/-- `list_votes_for_problem` at the process level: the source returns
in-memory rows directly, without any freshness check. -/
def list_votes_for_problem_proc (ps : ProcState) (problem_id : Int) : List Vote :=
  list_votes_for_problem ps.ds problem_id

/-- `get_problem` at the process level: no freshness check either. -/
def get_problem_proc (ps : ProcState) (problem_id : Int) : Option Problem :=
  get_problem ps.ds problem_id

/-! ## Concrete sample states used by witnesses and counterexamples -/

/-- A summary field with no data, as a catalog problem without the
`avg/sd/cnt` keys yields. -/
def zeroField : MetricField := { cnt := 0, avg := none, sdsq := none }

/-- The zero Aggregate Block. -/
def zeroBlock : Block := { count := 0, sum := 0, sum_sq := 0 }

/-- A freshly initialised problem carrying no statistics. -/
def pristineProblem (pid : Int) : Problem :=
  { id := pid,
    overallF := zeroField, thinkingF := zeroField,
    implementationF := zeroField, qualityF := zeroField,
    overallB := zeroBlock, thinkingB := zeroBlock,
    implementationB := zeroBlock, qualityB := zeroBlock,
    median_thinking := none, median_implementation := none,
    medium_difficulty := none, medium_quality := none }

/-- A well-formed vote row. -/
def mkVote (vid uid pid : Int) (t i o : ℚ) (q : Option ℚ) : Vote :=
  { id := vid, user_id := uid, problem_id := pid,
    thinking := some t, implementation := some i,
    overall := some o, difficulty := some o, quality := q,
    comment := "", public := false, deleted := false, accepted := true,
    score := 0, created_at := 0, updated_at := 0 }

/-! ## Claim-specific concrete states -/

/-- A snapshot holding exactly one vote (user 7, problem 1,
thinking 1000, implementation 2000, overall 1700). -/
def c1Disk : Store :=
  { votes := [mkVote 1 7 1 1000 2000 1700 none],
    reports := [], next_vote_id := 2, next_report_id := 1 }

/-- The in-memory state right after the initial load of `c1Disk` over a
pristine catalog problem 1 (what `__init__` produces). -/
def c1Init : DataStore :=
  rebuild_problem_stats { problems := [pristineProblem 1], store := c1Disk }

/-- The process then observes that another process has rewritten the
snapshot file (same content, newer mtime). -/
def c1PS : ProcState :=
  { ds := c1Init, store_mtime := 1, disk := c1Disk, disk_mtime := 2 }

/-- A process whose in-memory store is stale: the disk snapshot (mtime 2,
one vote for problem 1) is newer than the last-known mtime 1, and the
in-memory store has no votes. -/
def c5PS : ProcState :=
  { ds := { problems := [pristineProblem 1],
            store := { votes := [], reports := [],
                       next_vote_id := 1, next_report_id := 1 } },
    store_mtime := 1, disk := c1Disk, disk_mtime := 2 }

/-- One vote by user 7 on problem 1. -/
def v71 : Vote := mkVote 1 7 1 1000 2000 1700 none

/-- A ledger state with one problem and no votes. -/
def emptyDS : DataStore :=
  { problems := [pristineProblem 1],
    store := { votes := [], reports := [], next_vote_id := 1, next_report_id := 1 } }

/-- Problem 1 carrying exactly `v71`'s statistics. -/
def oneVoteProblem : Problem :=
  { id := 1,
    overallF := { cnt := 1, avg := some 1700, sdsq := some 0 },
    thinkingF := { cnt := 1, avg := some 1000, sdsq := some 0 },
    implementationF := { cnt := 1, avg := some 2000, sdsq := some 0 },
    qualityF := zeroField,
    overallB := { count := 1, sum := 1700, sum_sq := 2890000 },
    thinkingB := { count := 1, sum := 1000, sum_sq := 1000000 },
    implementationB := { count := 1, sum := 2000, sum_sq := 4000000 },
    qualityB := zeroBlock,
    median_thinking := some 1000, median_implementation := some 2000,
    medium_difficulty := some 1700, medium_quality := none }

/-- A consistent ledger state with one vote. -/
def oneVoteDS : DataStore :=
  { problems := [oneVoteProblem],
    store := { votes := [v71], reports := [], next_vote_id := 2, next_report_id := 1 } }

/-- One report by user 9 against vote 1. -/
def rep1 : Report :=
  { id := 1, vote_id := 1, user_id := 9, reporter_id := 9, target_user_id := some 7,
    created_at := 0 }

/-- A state with one vote and one report referencing it. -/
def reportDS : DataStore :=
  { oneVoteDS with store := { oneVoteDS.store with reports := [rep1] } }

/-- A quiescent process over `oneVoteDS` (file already reconciled). -/
def onePS : ProcState :=
  { ds := oneVoteDS, store_mtime := 1, disk := oneVoteDS.store, disk_mtime := 1 }

/-! ## Predicates about ledger states -/

/-- No report references a vote id that is absent from the vote list. -/
def NoOrphans (ds : DataStore) : Prop :=
  ∀ rep ∈ ds.store.reports, ∃ v ∈ ds.store.votes, v.id = rep.vote_id

/-- Select, per metric, the argument `_adjust_problem_stats` receives in
the source order `(thinking, implementation, overall, quality)`. -/
def metricArg (t i o q : Option ℚ) : Metric → Option ℚ
  | .thinking => t
  | .implementation => i
  | .overall => o
  | .quality => q

/-- The contributing values for one problem and metric: the non-null
metric values of the non-deleted votes targeting the problem. -/
def contribValues (votes : List Vote) (pid : Int) (m : Metric) : List ℚ :=
  (votes.filter fun v => !v.deleted && v.problem_id == pid).filterMap fun v => metricValue v m

/-- A block agrees with a list of contributing values in count, sum and
sum of squares. -/
def blockMatches (b : Block) (vals : List ℚ) : Prop :=
  b.count = (vals.length : Int) ∧ b.sum = vals.sum ∧ b.sum_sq = (vals.map fun v => v ^ 2).sum

/-- A vote row as the ledger itself produces them: live, with
`difficulty` mirroring `overall` (so the `overall or difficulty`
fallback reads back the stored overall). -/
def WellFormedVote (v : Vote) : Prop :=
  v.deleted = false ∧ v.difficulty = v.overall

/-- At most one vote row per (user, problem) pair. -/
def UniquePairs (votes : List Vote) : Prop :=
  votes.Pairwise fun a b => ¬(a.user_id = b.user_id ∧ a.problem_id = b.problem_id)

/-- The ledger invariant: one row per (user, problem) pair, rows in the
shape the ledger writes, and every problem's four Aggregate Blocks
agreeing with the contributing votes. -/
def LedgerInv (ds : DataStore) : Prop :=
  UniquePairs ds.store.votes
  ∧ (∀ v ∈ ds.store.votes, WellFormedVote v)
  ∧ ∀ p ∈ ds.problems, ∀ m : Metric,
      blockMatches (blockOf p m) (contribValues ds.store.votes p.id m)

instance decidableBlockMatches (b : Block) (vals : List ℚ) :
    Decidable (blockMatches b vals) := by
  unfold blockMatches; infer_instance

instance decidableWellFormedVote (v : Vote) : Decidable (WellFormedVote v) := by
  unfold WellFormedVote; infer_instance

instance decidableUniquePairs (votes : List Vote) : Decidable (UniquePairs votes) := by
  unfold UniquePairs; infer_instance

instance decidableLedgerInv (ds : DataStore) : Decidable (LedgerInv ds) := by
  unfold LedgerInv; infer_instance

instance decidableNoOrphans (ds : DataStore) : Decidable (NoOrphans ds) := by
  unfold NoOrphans; infer_instance

/-- An externally driven vote-ledger operation (§4.4). -/
inductive LedgerOp
  | upsert (user_id problem_id : Int) (thinking implementation : ℚ)
      (quality : Option ℚ) (comment : String) (make_public : Bool) (timestamp : Int)
  | delete (vote_id : Int)

/-- Run one ledger operation (persistence aside). -/
def applyOp (calcOv : ℚ → ℚ → ℚ) (ds : DataStore) : LedgerOp → DataStore
  | .upsert u p t i q c pub ts => (upsert_vote calcOv ds u p t i q c pub ts).1
  | .delete vid => (mark_vote_deleted ds vid).1

/-- Run a sequence of ledger operations. -/
def applyOps (calcOv : ℚ → ℚ → ℚ) (ds : DataStore) (ops : List LedgerOp) : DataStore :=
  ops.foldl (applyOp calcOv) ds

/-! ## The numeric solver over the reals

`_calc_overall` runs float bisection; the model idealises the floats as
real numbers.  The `while right - left > eps` loop becomes a step
relation (a step is available exactly while the interval is wider than
`eps = 1e-4`), and the returned value is the final left endpoint. -/

/-- `_elo_win_probability`: the logistic Elo win probability with scale
constant 400. -/
noncomputable def elo_win_probability (a b : ℝ) : ℝ :=
  1 / (1 + (10 : ℝ) ^ ((b - a) / 400))

/-- One iteration of `_calc_overall`'s bisection loop on the state
`(left, right)`: compute the midpoint, move `right` down when the
product win probability exceeds one half, `left` up otherwise. -/
def bisect_step (t i : ℝ) (s s' : ℝ × ℝ) : Prop :=
  1 / 10000 < s.2 - s.1 ∧
  ((elo_win_probability ((s.1 + s.2) / 2) t * elo_win_probability ((s.1 + s.2) / 2) i > 1 / 2
      ∧ s' = (s.1, (s.1 + s.2) / 2))
   ∨ (¬(elo_win_probability ((s.1 + s.2) / 2) t * elo_win_probability ((s.1 + s.2) / 2) i > 1 / 2)
      ∧ s' = ((s.1 + s.2) / 2, s.2)))

/-- `_calc_overall` as a big-step relation: starting from `(1, 8000)`,
bisect until the width is at most `eps`, and return the left endpoint. -/
def calc_overall_rel (t i res : ℝ) : Prop :=
  ∃ L R : ℝ, Relation.ReflTransGen (bisect_step t i) (1, 8000) (L, R)
    ∧ R - L ≤ 1 / 10000 ∧ res = L

/-- On the diagonal, the product win probability crosses one half at
`x + 400·log₁₀(1 + √2)` (≈ `x + 153.1`), not at `x`. -/
noncomputable def diag_equilibrium (x : ℝ) : ℝ :=
  x + 400 * Real.logb 10 (1 + Real.sqrt 2)

/-- One add or remove operation against a metric's summary field and
Aggregate Block. -/
inductive BlockOp
  | add (v : ℚ)
  | remove (v : ℚ)

/-- Run one block operation through `update_metric`. -/
def applyBlockOp (st : MetricField × Block) : BlockOp → MetricField × Block
  | .add v => update_metric false (some v) st
  | .remove v => update_metric true (some v) st

/-! ## Freshness guard lemmas -/

/-- Reloading records the disk mtime, so a second freshness check right
after a reload is a no-op. -/
theorem ensure_store_fresh_idem (ps : ProcState) :
    ensure_store_fresh (ensure_store_fresh ps) = ensure_store_fresh ps := by
  by_cases h : ps.disk_mtime ≠ 0 ∧ ps.store_mtime < ps.disk_mtime
  · have h1 : ensure_store_fresh ps = load_store ps := if_pos h
    rw [h1]
    have h2 : ¬((load_store ps).disk_mtime ≠ 0 ∧
        (load_store ps).store_mtime < (load_store ps).disk_mtime) := by
      simp [load_store]
    exact if_neg h2
  · have h1 : ensure_store_fresh ps = ps := if_neg h
    rw [h1, ensure_store_fresh, if_neg h]

/-- After `_save_store` the recorded mtime matches the file, so the next
freshness check is a no-op. -/
theorem ensure_store_fresh_save (ps : ProcState) :
    ensure_store_fresh (save_store ps) = save_store ps := by
  apply if_neg
  simp [save_store]

/-! ## Claim C1: freshness reload and aggregate rebuild -/

/-- Claim C1: the claim says that after an mtime-triggered reload the
Aggregate Blocks are rebuilt from the persisted summary fields, not by
replaying votes, and match the new file without duplicating any record.
In the code, `_rebuild_problem_stats` replays every vote on top of
summary fields that already include those votes: reloading an identical
one-vote snapshot turns the overall count from 1 into 2, so the
in-memory aggregates no longer match the file. -/
theorem c1_reload_double_counts :
    ((get_problem c1Init 1).map fun p => p.overallF.cnt) = some 1
    ∧ (ensure_store_fresh c1PS).ds.store = c1Disk
    ∧ ((get_problem (ensure_store_fresh c1PS).ds 1).map fun p => p.overallF.cnt) = some 2 := by
  decide

/-! ## Claim C5: which reads invoke the freshness guard -/

/-- Claim C5 counterexample: the claim says every externally observable
read, including `list_votes_for_problem` and `get_problem`, runs
`EnsureFresh` before returning in-memory data.  On a state whose disk
file is strictly newer, `list_votes_for_problem` returns the stale empty
list and `get_problem` the stale zero-count problem, while the same
reads after an explicit reconciliation see the on-disk vote — so those
two reads do not invoke the guard. -/
theorem c5_stale_read_counterexample :
    c5PS.store_mtime < c5PS.disk_mtime
    ∧ list_votes_for_problem_proc c5PS 1 = []
    ∧ list_votes_for_problem_proc (ensure_store_fresh c5PS) 1 ≠ []
    ∧ ((get_problem_proc c5PS 1).map fun p => p.overallF.cnt) = some 0
    ∧ ((get_problem_proc (ensure_store_fresh c5PS) 1).map fun p => p.overallF.cnt) = some 1 := by
  decide

/-- Claim C5 (amended): the freshness guard does run at the start of
`find_vote_by_id` (so its result is the same whether or not the state
was reconciled first), but `list_votes_for_problem` and `get_problem`
return in-memory data without invoking it, as the stale state `c5PS`
shows. -/
theorem c5_fresh_guard_coverage :
    (∀ ps vid, find_vote_by_id_proc (ensure_store_fresh ps) vid = find_vote_by_id_proc ps vid)
    ∧ list_votes_for_problem_proc (ensure_store_fresh c5PS) 1 ≠ list_votes_for_problem_proc c5PS 1
    ∧ get_problem_proc (ensure_store_fresh c5PS) 1 ≠ get_problem_proc c5PS 1 := by
  refine ⟨fun ps vid => ?_, by decide, by decide⟩
  rw [find_vote_by_id_proc, ensure_store_fresh_idem, find_vote_by_id_proc]

/-! ## Structural lemmas about stat adjustment and vote removal -/

theorem update_problem_medians_store (ds : DataStore) (pid : Int) :
    (update_problem_medians ds pid).store = ds.store := by
  unfold update_problem_medians
  split
  · rfl
  · rfl

theorem adjust_problem_stats_store (ds : DataStore) (pid : Int)
    (t i o q : Option ℚ) (rm : Bool) :
    (adjust_problem_stats ds pid t i o q rm).store = ds.store := by
  unfold adjust_problem_stats
  split
  · rfl
  · rw [update_problem_medians_store]

theorem removeLoop_cons_live (pred : Vote → Bool) (dsa : DataStore) (v : Vote)
    (rest remaining : List Vote) (removed : List Int) (cleared : Int)
    (hp : pred v = true) (hd : v.deleted = false) :
    removeLoop pred dsa (v :: rest) remaining removed cleared
      = removeLoop pred
          (adjust_problem_stats dsa v.problem_id v.thinking v.implementation
            (orFalsy v.overall v.difficulty) v.quality true)
          rest remaining (removed ++ [v.id]) (cleared + 1) := by
  simp [removeLoop, hp, hd]

theorem removeLoop_cons_dead (pred : Vote → Bool) (dsa : DataStore) (v : Vote)
    (rest remaining : List Vote) (removed : List Int) (cleared : Int)
    (hp : pred v = true) (hd : v.deleted = true) :
    removeLoop pred dsa (v :: rest) remaining removed cleared
      = removeLoop pred dsa rest remaining (removed ++ [v.id]) cleared := by
  simp [removeLoop, hp, hd]

theorem removeLoop_cons_keep (pred : Vote → Bool) (dsa : DataStore) (v : Vote)
    (rest remaining : List Vote) (removed : List Int) (cleared : Int)
    (hp : pred v = false) :
    removeLoop pred dsa (v :: rest) remaining removed cleared
      = removeLoop pred dsa rest (remaining ++ [v]) removed cleared := by
  simp [removeLoop, hp]

/-- The removal loop: the surviving votes are exactly the non-matching
ones (in order), the removed ids are the matching votes' ids, the
cleared counter moves only when some vote matches, and the loop never
touches the vote/report collections. -/
theorem removeLoop_spec (pred : Vote → Bool) (votes : List Vote) :
    ∀ (dsa : DataStore) (remaining : List Vote) (removed : List Int) (cleared : Int),
      (removeLoop pred dsa votes remaining removed cleared).2.1
          = remaining ++ votes.filter (fun v => !pred v)
      ∧ (removeLoop pred dsa votes remaining removed cleared).2.2.1
          = removed ++ (votes.filter pred).map (fun v => v.id)
      ∧ ((removeLoop pred dsa votes remaining removed cleared).2.2.2 = cleared
          ∨ (votes.filter pred) ≠ [])
      ∧ (removeLoop pred dsa votes remaining removed cleared).1.store = dsa.store := by
  induction votes with
  | nil => intro dsa remaining removed cleared; simp [removeLoop]
  | cons v rest ih =>
    intro dsa remaining removed cleared
    cases hp : pred v with
    | true =>
      cases hd : v.deleted with
      | true =>
        have h := ih dsa remaining (removed ++ [v.id]) cleared
        rw [removeLoop_cons_dead pred dsa v rest remaining removed cleared hp hd]
        refine ⟨by rw [h.1]; simp [hp], by rw [h.2.1]; simp [hp], ?_, h.2.2.2⟩
        right; simp [hp]
      | false =>
        have h := ih (adjust_problem_stats dsa v.problem_id v.thinking v.implementation
            (orFalsy v.overall v.difficulty) v.quality true) remaining
            (removed ++ [v.id]) (cleared + 1)
        rw [removeLoop_cons_live pred dsa v rest remaining removed cleared hp hd]
        refine ⟨by rw [h.1]; simp [hp], by rw [h.2.1]; simp [hp], ?_, ?_⟩
        · right; simp [hp]
        · rw [h.2.2.2, adjust_problem_stats_store]
    | false =>
      have h := ih dsa (remaining ++ [v]) removed cleared
      rw [removeLoop_cons_keep pred dsa v rest remaining removed cleared hp]
      exact ⟨by rw [h.1]; simp [hp], by rw [h.2.1]; simp [hp],
             by rcases h.2.2.1 with h1 | h1 <;> simp [hp, h1], h.2.2.2⟩

/-- When nothing matches, the loop leaves the state untouched. -/
theorem removeLoop_no_match (pred : Vote → Bool) (votes : List Vote)
    (hnone : votes.filter pred = []) :
    ∀ (dsa : DataStore) (remaining : List Vote) (removed : List Int) (cleared : Int),
      removeLoop pred dsa votes remaining removed cleared
        = (dsa, remaining ++ votes, removed, cleared) := by
  induction votes with
  | nil => intro dsa remaining removed cleared; simp [removeLoop]
  | cons v rest ih =>
    intro dsa remaining removed cleared
    have hv : pred v = false := by
      by_contra hc
      simp only [Bool.not_eq_false] at hc
      simp [List.filter_cons, hc] at hnone
    have hrest : rest.filter pred = [] := by
      simpa [List.filter_cons, hv] using hnone
    simp [removeLoop, hv, ih hrest]

/-- `_remove_votes_matching` with no matching vote is a complete no-op
returning `(0, [])`. -/
theorem remove_votes_matching_no_match (ds : DataStore) (pred : Vote → Bool)
    (hnone : ds.store.votes.filter pred = []) :
    remove_votes_matching ds pred = (ds, 0, []) := by
  unfold remove_votes_matching
  by_cases he : ds.store.votes.isEmpty
  · simp [he]
  · simp only [he, if_false, Bool.false_eq_true]
    rw [removeLoop_no_match pred ds.store.votes hnone ds [] [] 0]
    simp

/-- The surviving votes after `_remove_votes_matching` are exactly the
non-matching ones. -/
theorem remove_votes_matching_votes (ds : DataStore) (pred : Vote → Bool) :
    (remove_votes_matching ds pred).1.store.votes
      = ds.store.votes.filter (fun v => !pred v) := by
  by_cases hnone : ds.store.votes.filter pred = []
  · rw [remove_votes_matching_no_match ds pred hnone]
    have : ∀ v ∈ ds.store.votes, (!pred v) = true := by
      intro v hv
      have := List.filter_eq_nil_iff.mp hnone v hv
      simp [this]
    simp [List.filter_eq_self.mpr this]
  · unfold remove_votes_matching
    have he : ds.store.votes.isEmpty = false := by
      cases hv : ds.store.votes with
      | nil => simp [hv] at hnone
      | cons a l => simp [hv]
    simp only [he, if_false, Bool.false_eq_true]
    have h := removeLoop_spec pred ds.store.votes ds [] [] 0
    have hremoved : (removeLoop pred ds ds.store.votes [] [] 0).2.2.1
        = (ds.store.votes.filter pred).map (fun v => v.id) := by
      rw [h.2.1]; simp
    have hne : ((removeLoop pred ds ds.store.votes [] [] 0).2.2.1).isEmpty = false := by
      rw [hremoved]
      cases hv : ds.store.votes.filter pred with
      | nil => exact absurd hv hnone
      | cons a l => simp [hv]
    simp only [hne, if_false, Bool.false_eq_true]
    rw [h.1]
    simp

/-- The reports surviving `_remove_votes_matching` never reference a
removed id, and each was present before. -/
theorem remove_votes_matching_reports (ds : DataStore) (pred : Vote → Bool) :
    ∀ rep ∈ (remove_votes_matching ds pred).1.store.reports,
      rep ∈ ds.store.reports
      ∧ ∀ v ∈ ds.store.votes, pred v = true → v.id ≠ rep.vote_id := by
  by_cases hnone : ds.store.votes.filter pred = []
  · rw [remove_votes_matching_no_match ds pred hnone]
    intro rep hrep
    refine ⟨hrep, fun v hv hpv => ?_⟩
    have := List.filter_eq_nil_iff.mp hnone v hv
    simp [hpv] at this
  · unfold remove_votes_matching
    have he : ds.store.votes.isEmpty = false := by
      cases hv : ds.store.votes with
      | nil => simp [hv] at hnone
      | cons a l => simp [hv]
    simp only [he, if_false, Bool.false_eq_true]
    have h := removeLoop_spec pred ds.store.votes ds [] [] 0
    have hremoved : (removeLoop pred ds ds.store.votes [] [] 0).2.2.1
        = (ds.store.votes.filter pred).map (fun v => v.id) := by
      rw [h.2.1]; simp
    have hne : ((removeLoop pred ds ds.store.votes [] [] 0).2.2.1).isEmpty = false := by
      rw [hremoved]
      cases hv : ds.store.votes.filter pred with
      | nil => exact absurd hv hnone
      | cons a l => simp [hv]
    simp only [hne, if_false, Bool.false_eq_true]
    intro rep hrep
    simp only [List.mem_filter] at hrep
    have hmem : rep ∈ ds.store.reports := by
      have := hrep.1
      rw [h.2.2.2] at this
      exact this
    refine ⟨hmem, fun v hv hpv hid => ?_⟩
    have hin : rep.vote_id ∈ (removeLoop pred ds ds.store.votes [] [] 0).2.2.1 := by
      rw [hremoved]
      exact List.mem_map.mpr ⟨v, List.mem_filter.mpr ⟨hv, hpv⟩, hid⟩
    have hflt := hrep.2
    simp [hin] at hflt

/-- The removed-id list returned by `_remove_votes_matching` is exactly
the matching votes' ids. -/
theorem remove_votes_matching_removed (ds : DataStore) (pred : Vote → Bool) :
    (remove_votes_matching ds pred).2.2
      = (ds.store.votes.filter pred).map (fun v => v.id) := by
  unfold remove_votes_matching
  by_cases he : ds.store.votes.isEmpty
  · rw [List.isEmpty_iff] at he
    simp [he]
  · have heb : ds.store.votes.isEmpty = false := by
      cases hb : ds.store.votes.isEmpty
      · rfl
      · exact absurd hb he
    simp only [heb, if_false, Bool.false_eq_true]
    have h := (removeLoop_spec pred ds.store.votes ds [] [] 0).2.1
    by_cases hre : ((removeLoop pred ds ds.store.votes [] [] 0).2.2.1).isEmpty
    · simp only [hre, if_true]
      rw [h]; simp
    · have hreb : ((removeLoop pred ds ds.store.votes [] [] 0).2.2.1).isEmpty = false := by
        cases hb : ((removeLoop pred ds ds.store.votes [] [] 0).2.2.1).isEmpty
        · rfl
        · exact absurd hb hre
      simp only [hreb, if_false, Bool.false_eq_true]
      rw [h]; simp

/-- Orphan-freedom is preserved by `_remove_votes_matching`. -/
theorem remove_votes_matching_no_orphans (ds : DataStore) (pred : Vote → Bool)
    (h : NoOrphans ds) : NoOrphans (remove_votes_matching ds pred).1 := by
  intro rep hrep
  obtain ⟨hmem, hnotremoved⟩ := remove_votes_matching_reports ds pred rep hrep
  obtain ⟨v, hv, hid⟩ := h rep hmem
  refine ⟨v, ?_, hid⟩
  rw [remove_votes_matching_votes]
  refine List.mem_filter.mpr ⟨hv, ?_⟩
  cases hpv : pred v with
  | false => simp
  | true => exact absurd hid (hnotremoved v hv hpv)

/-- Bulk deletion either leaves the state untouched or delegates to
`_remove_votes_matching`. -/
theorem mark_votes_deleted_bulk_cases (ds : DataStore) (ids : List (Option Int)) :
    (mark_votes_deleted_bulk ds ids).1 = ds
    ∨ ∃ pred, (mark_votes_deleted_bulk ds ids).1 = (remove_votes_matching ds pred).1 := by
  unfold mark_votes_deleted_bulk
  by_cases hempty : ((if ids.all (fun raw => raw.isSome) then ids.filterMap id else []) : List Int).isEmpty
  · left
    simp only [hempty, if_true]
  · have hb : ((if ids.all (fun raw => raw.isSome) then ids.filterMap id else []) : List Int).isEmpty = false := by
      cases hx : ((if ids.all (fun raw => raw.isSome) then ids.filterMap id else []) : List Int).isEmpty
      · rfl
      · exact absurd hx hempty
    right
    refine ⟨fun v => (if ids.all (fun raw => raw.isSome) then ids.filterMap id else []).contains v.id, ?_⟩
    simp only [hb, if_false, Bool.false_eq_true]

/-! ## Claim C4: double deletion is an idempotent no-op -/

/-- Claim C4: `mark_vote_deleted` returns false when no vote with the
given id exists (leaving the state untouched), and a second deletion of
the same id returns false and leaves the post-deletion state — blocks,
medians, votes and reports — exactly unchanged, so a vote's
contribution is never double-subtracted. -/
theorem c4_delete_vote_idempotent (ds : DataStore) (vid : Int) :
    ((∀ v ∈ ds.store.votes, v.id ≠ vid) → mark_vote_deleted ds vid = (ds, false))
    ∧ mark_vote_deleted (mark_vote_deleted ds vid).1 vid
        = ((mark_vote_deleted ds vid).1, false) := by
  have key : ∀ ds2 : DataStore, ds2.store.votes.filter (fun v => v.id == vid) = [] →
      mark_vote_deleted ds2 vid = (ds2, false) := by
    intro ds2 h2
    simp [mark_vote_deleted, remove_votes_matching_no_match ds2 _ h2]
  constructor
  · intro h
    refine key ds (List.filter_eq_nil_iff.mpr fun v hv => ?_)
    simpa using h v hv
  · apply key
    have hv1 : (mark_vote_deleted ds vid).1
        = (remove_votes_matching ds (fun v => v.id == vid)).1 := rfl
    rw [hv1, remove_votes_matching_votes, List.filter_filter]
    simp

/-! ## Claim C6: report cascade on vote removal -/

/-- Claim C6: if no report is orphaned before the operation, then after
`mark_vote_deleted`, `clear_votes_for_user` (delete votes for a user) or
`mark_votes_deleted_bulk`, every remaining report still references a
vote that exists — reports referencing removed votes are purged in the
same operation. -/
theorem c6_no_orphan_reports (ds : DataStore) (vid uid : Int) (ids : List (Option Int))
    (h : NoOrphans ds) :
    NoOrphans (mark_vote_deleted ds vid).1
    ∧ NoOrphans (clear_votes_for_user ds uid).1
    ∧ NoOrphans (mark_votes_deleted_bulk ds ids).1 := by
  refine ⟨remove_votes_matching_no_orphans ds _ h,
          remove_votes_matching_no_orphans ds _ h, ?_⟩
  rcases mark_votes_deleted_bulk_cases ds ids with hc | ⟨pred, hc⟩
  · rw [hc]; exact h
  · rw [hc]; exact remove_votes_matching_no_orphans ds pred h

/-! ## Claim C9: deletion is a hard delete -/

/-- Claim C9: when `mark_vote_deleted` returns true, no vote row with
that id remains in the store (the row is removed, not flagged), and a
subsequent `find_vote_by_id` — freshness guard included — returns
nothing. -/
theorem c9_hard_delete (ps : ProcState) (vid : Int)
    (h : (mark_vote_deleted_proc ps vid).2 = true) :
    (∀ v ∈ (mark_vote_deleted_proc ps vid).1.ds.store.votes, v.id ≠ vid)
    ∧ find_vote_by_id_proc (mark_vote_deleted_proc ps vid).1 (some vid) = none := by
  have hds : (mark_vote_deleted_proc ps vid).1.ds
      = (remove_votes_matching ps.ds (fun v => v.id == vid)).1 := by
    unfold mark_vote_deleted_proc remove_votes_matching_proc
    by_cases he : ((remove_votes_matching ps.ds (fun v => v.id == vid)).2.2).isEmpty
    · simp [he]
    · simp [he, save_store]
  have hgone : ∀ v ∈ (mark_vote_deleted_proc ps vid).1.ds.store.votes, v.id ≠ vid := by
    intro v hv
    rw [hds, remove_votes_matching_votes] at hv
    have := (List.mem_filter.mp hv).2
    simpa using this
  refine ⟨hgone, ?_⟩
  have hne : ((remove_votes_matching ps.ds (fun v => v.id == vid)).2.2).isEmpty = false := by
    cases hb : ((remove_votes_matching ps.ds (fun v => v.id == vid)).2.2).isEmpty
    · rfl
    · exfalso
      rw [List.isEmpty_iff] at hb
      have hflt : ps.ds.store.votes.filter (fun v => v.id == vid) = [] := by
        have hrm := remove_votes_matching_removed ps.ds (fun v => v.id == vid)
        rw [hb] at hrm
        cases hx : ps.ds.store.votes.filter (fun v => v.id == vid)
        · rfl
        · rw [hx] at hrm; simp at hrm
      have hzero := remove_votes_matching_no_match ps.ds _ hflt
      have : (mark_vote_deleted_proc ps vid).2 = false := by
        unfold mark_vote_deleted_proc remove_votes_matching_proc
        rw [hzero]
        simp
      rw [this] at h
      cases h
  have hps : (mark_vote_deleted_proc ps vid).1
      = save_store { ps with ds := (remove_votes_matching ps.ds (fun v => v.id == vid)).1 } := by
    unfold mark_vote_deleted_proc remove_votes_matching_proc
    simp [hne]
  rw [find_vote_by_id_proc, hps, ensure_store_fresh_save]
  unfold find_vote_by_id_core
  by_cases hv : vid ≤ 0
  · simp [hv]
  · simp only [hv, if_false]
    apply List.find?_eq_none.mpr
    intro v hvmem
    have hvm : v ∈ (mark_vote_deleted_proc ps vid).1.ds.store.votes := by
      rw [hps]
      exact hvmem
    simpa using hgone v hvm

/-! ## Claim C10: bulk delete with an unparseable id is a no-op -/

/-- Claim C10: if any entry of the id list passed to
`mark_votes_deleted_bulk` is not convertible to an integer, the whole
call returns 0 and the state — votes, reports and all aggregates — is
completely unchanged, even if other entries name existing votes. -/
theorem c10_bulk_delete_invalid_id_noop (ds : DataStore) (ids : List (Option Int))
    (h : none ∈ ids) : mark_votes_deleted_bulk ds ids = (ds, 0) := by
  have hall : ids.all (fun raw => raw.isSome) = false := by
    rw [List.all_eq_false]
    exact ⟨none, h, by simp⟩
  simp [mark_votes_deleted_bulk, hall]

/-! ## Claim C7: report_vote error handling -/

/-- Claim C7: for positive, parseable ids, `report_vote` fails with
"Vote not found" when the vote is absent or deleted and with
"Already reported" when the (vote, reporter) pair already has a report,
each failure leaving the store byte-for-byte unchanged; otherwise it
succeeds, appending exactly one report that captures the vote owner's
id at that instant and advancing only the report counter. -/
theorem c7_report_vote_spec (ds : DataStore) (vid uid now : Int)
    (hv : 0 < vid) (hu : 0 < uid) :
    (ds.store.votes.find? (fun v => v.id == vid) = none →
        report_vote_core ds (some vid) (some uid) now = (ds, false, some "Vote not found"))
    ∧ (∀ vote, ds.store.votes.find? (fun v => v.id == vid) = some vote →
        vote.deleted = true →
        report_vote_core ds (some vid) (some uid) now = (ds, false, some "Vote not found"))
    ∧ (∀ vote, ds.store.votes.find? (fun v => v.id == vid) = some vote →
        vote.deleted = false →
        (ds.store.reports.any fun r => r.vote_id == vid && r.user_id == uid) = true →
        report_vote_core ds (some vid) (some uid) now = (ds, false, some "Already reported"))
    ∧ (∀ vote, ds.store.votes.find? (fun v => v.id == vid) = some vote →
        vote.deleted = false →
        (ds.store.reports.any fun r => r.vote_id == vid && r.user_id == uid) = false →
        (report_vote_core ds (some vid) (some uid) now).2.1 = true
        ∧ (report_vote_core ds (some vid) (some uid) now).2.2 = none
        ∧ (report_vote_core ds (some vid) (some uid) now).1.store.reports
            = ds.store.reports ++
              [{ id := max 1 ds.store.next_report_id, vote_id := vid, user_id := uid,
                 reporter_id := uid,
                 target_user_id := if vote.user_id = 0 then none else some vote.user_id,
                 created_at := now }]
        ∧ (report_vote_core ds (some vid) (some uid) now).1.store.votes = ds.store.votes
        ∧ (report_vote_core ds (some vid) (some uid) now).1.problems = ds.problems
        ∧ (report_vote_core ds (some vid) (some uid) now).1.store.next_report_id
            = max 1 ds.store.next_report_id + 1) := by
  have hvb : (vid ≤ 0 || uid ≤ 0) = false := by
    simp only [Bool.or_eq_false_iff, decide_eq_false_iff_not, not_le]
    exact ⟨hv, hu⟩
  refine ⟨?_, ?_, ?_, ?_⟩
  · intro hnone
    simp [report_vote_core, hvb, hnone]
  · intro vote hfind hdel
    simp [report_vote_core, hvb, hfind, hdel]
  · intro vote hfind hdel hrep
    simp [report_vote_core, hvb, hfind, hdel, hrep]
  · intro vote hfind hdel hrep
    refine ⟨?_, ?_, ?_, ?_, ?_, ?_⟩ <;>
      simp [report_vote_core, hvb, hfind, hdel, hrep]

/-! ## Aggregate Block lemmas -/

theorem sumSq_nonneg (vals : List ℚ) : 0 ≤ (vals.map fun v => v ^ 2).sum := by
  apply List.sum_nonneg
  intro x hx
  obtain ⟨v, _, rfl⟩ := List.mem_map.mp hx
  positivity

theorem blockMatches_of_perm {b : Block} {vals vals' : List ℚ} (hp : vals.Perm vals')
    (h : blockMatches b vals) : blockMatches b vals' := by
  obtain ⟨hc, hs, hq⟩ := h
  exact ⟨by rw [hc, hp.length_eq], by rw [hs, hp.sum_eq], by rw [hq, (hp.map _).sum_eq]⟩

theorem update_metric_none (rm : Bool) (st : MetricField × Block) :
    update_metric rm none st = st := rfl

theorem update_metric_add_snd (v : ℚ) (fld : MetricField) (b : Block)
    (h : ¬ b.count + 1 ≤ 0) :
    (update_metric false (some v) (fld, b)).2
      = { count := b.count + 1, sum := b.sum + v, sum_sq := max 0 (b.sum_sq + v ^ 2) } := by
  simp only [update_metric, Bool.false_eq_true, if_false, if_neg h]

theorem update_metric_remove_zero (v : ℚ) (fld : MetricField) (b : Block)
    (h : max 0 (b.count - 1) ≤ 0) :
    update_metric true (some v) (fld, b)
      = ({ cnt := 0, avg := none, sdsq := none },
         { count := max 0 (b.count - 1), sum := 0, sum_sq := 0 }) := by
  simp only [update_metric, if_true, if_pos h]

theorem update_metric_remove_snd_pos (v : ℚ) (fld : MetricField) (b : Block)
    (h : ¬ max 0 (b.count - 1) ≤ 0) :
    (update_metric true (some v) (fld, b)).2
      = { count := max 0 (b.count - 1), sum := b.sum - v,
          sum_sq := max 0 (b.sum_sq - v ^ 2) } := by
  simp only [update_metric, if_true, if_neg h]

theorem blockMatches_add (fld : MetricField) (b : Block) (vals : List ℚ) (ov : Option ℚ)
    (h : blockMatches b vals) :
    blockMatches (update_metric false ov (fld, b)).2 (vals ++ ov.toList) := by
  cases ov with
  | none => simpa [update_metric_none] using h
  | some v =>
    obtain ⟨hc, hs, hq⟩ := h
    have hb0 : 0 ≤ b.count := by rw [hc]; exact_mod_cast Nat.zero_le _
    have hne : ¬ b.count + 1 ≤ 0 := by omega
    rw [update_metric_add_snd v fld b hne]
    have hnn : 0 ≤ b.sum_sq + v ^ 2 := by
      rw [hq]
      exact add_nonneg (sumSq_nonneg vals) (sq_nonneg v)
    refine ⟨?_, ?_, ?_⟩
    · simp only [Option.toList_some, List.length_append, List.length_cons, List.length_nil]
      rw [hc]; push_cast; ring
    · simp [hs]
    · rw [max_eq_right hnn, hq]
      simp

theorem blockMatches_remove (fld : MetricField) (b : Block) (vals₁ vals₂ : List ℚ)
    (ov : Option ℚ) (h : blockMatches b (vals₁ ++ ov.toList ++ vals₂)) :
    blockMatches (update_metric true ov (fld, b)).2 (vals₁ ++ vals₂) := by
  cases ov with
  | none => simpa [update_metric_none] using h
  | some v =>
    obtain ⟨hc, hs, hq⟩ := h
    have hcount : b.count = (vals₁.length : Int) + 1 + (vals₂.length : Int) := by
      rw [hc]
      simp only [Option.toList_some, List.length_append, List.length_cons, List.length_nil]
      push_cast
      ring
    by_cases hz : max 0 (b.count - 1) ≤ 0
    · have hlen : vals₁.length = 0 ∧ vals₂.length = 0 := by
        constructor <;> omega
      have h1 : vals₁ = [] := List.length_eq_zero.mp hlen.1
      have h2 : vals₂ = [] := List.length_eq_zero.mp hlen.2
      have heq := update_metric_remove_zero v fld b hz
      subst h1 h2
      rw [heq]
      refine ⟨?_, by simp, by simp⟩
      simp only [List.nil_append, List.length_nil]
      omega
    · have heq := update_metric_remove_snd_pos v fld b hz
      rw [heq]
      refine ⟨?_, ?_, ?_⟩
      · simp only [List.length_append]
        push_cast
        omega
      · rw [hs]
        simp only [Option.toList_some, List.sum_append, List.sum_cons, List.sum_nil]
        ring
      · have hq2 : b.sum_sq - v ^ 2 = ((vals₁ ++ vals₂).map fun x => x ^ 2).sum := by
          rw [hq]
          simp only [Option.toList_some, List.map_append, List.sum_append, List.map_cons,
            List.sum_cons, List.map_nil, List.sum_nil]
          ring
        rw [hq2, max_eq_right (sumSq_nonneg _)]

/-! ## Claim C8: block count floor and zero reset -/

theorem applyBlockOp_step (st : MetricField × Block) (op : BlockOp) (h : 0 ≤ st.2.count) :
    0 ≤ (applyBlockOp st op).2.count
    ∧ ((applyBlockOp st op).2.count = 0 →
        (applyBlockOp st op).1.avg = none ∧ (applyBlockOp st op).1.sdsq = none
        ∧ (applyBlockOp st op).2.sum = 0 ∧ (applyBlockOp st op).2.sum_sq = 0) := by
  obtain ⟨fld, b⟩ := st
  simp only at h
  cases op with
  | add v =>
    have hne : ¬ b.count + 1 ≤ 0 := by omega
    have h2 : (applyBlockOp (fld, b) (BlockOp.add v)).2
        = { count := b.count + 1, sum := b.sum + v, sum_sq := max 0 (b.sum_sq + v ^ 2) } :=
      update_metric_add_snd v fld b hne
    rw [h2]
    constructor
    · show 0 ≤ b.count + 1
      omega
    · intro hzero
      have hz2 : b.count + 1 = 0 := hzero
      exact absurd hz2 (by omega)
  | remove v =>
    by_cases hz : max 0 (b.count - 1) ≤ 0
    · have h2 : applyBlockOp (fld, b) (BlockOp.remove v)
          = ({ cnt := 0, avg := none, sdsq := none },
             { count := max 0 (b.count - 1), sum := 0, sum_sq := 0 }) :=
        update_metric_remove_zero v fld b hz
      rw [h2]
      exact ⟨le_max_left 0 _, fun _ => ⟨rfl, rfl, rfl, rfl⟩⟩
    · have h2 : (applyBlockOp (fld, b) (BlockOp.remove v)).2
          = { count := max 0 (b.count - 1), sum := b.sum - v,
              sum_sq := max 0 (b.sum_sq - v ^ 2) } :=
        update_metric_remove_snd_pos v fld b hz
      rw [h2]
      constructor
      · exact le_max_left 0 _
      · intro hzero
        have hz2 : max 0 (b.count - 1) = 0 := hzero
        exact absurd hz2.le hz

/-- Claim C8: starting from any block with non-negative count, every
sequence of add/remove operations (vote-edit corrections included)
keeps the count non-negative, and whenever the count is zero after an
operation, the reported mean and stddev are null and the block's sum
and sum of squares are exactly zero.  Since this holds for every
operation list, it holds at every intermediate point of a longer
sequence. -/
theorem c8_block_count_floor_and_reset (st0 : MetricField × Block) (ops : List BlockOp)
    (h0 : 0 ≤ st0.2.count) :
    0 ≤ (ops.foldl applyBlockOp st0).2.count
    ∧ (ops ≠ [] → (ops.foldl applyBlockOp st0).2.count = 0 →
        (ops.foldl applyBlockOp st0).1.avg = none
        ∧ (ops.foldl applyBlockOp st0).1.sdsq = none
        ∧ (ops.foldl applyBlockOp st0).2.sum = 0
        ∧ (ops.foldl applyBlockOp st0).2.sum_sq = 0) := by
  induction ops generalizing st0 with
  | nil => exact ⟨h0, fun hne => absurd rfl hne⟩
  | cons op rest ih =>
    have hstep := applyBlockOp_step st0 op h0
    cases rest with
    | nil =>
      simp only [List.foldl_cons, List.foldl_nil]
      exact ⟨hstep.1, fun _ => hstep.2⟩
    | cons op2 rest2 =>
      have hrec := ih (applyBlockOp st0 op) hstep.1
      simp only [List.foldl_cons] at hrec ⊢
      exact ⟨hrec.1, fun _ => hrec.2 (by simp)⟩

/-! ## Contribution lemmas -/

theorem contribValues_append (votes₁ votes₂ : List Vote) (pid : Int) (m : Metric) :
    contribValues (votes₁ ++ votes₂) pid m
      = contribValues votes₁ pid m ++ contribValues votes₂ pid m := by
  simp [contribValues, List.filter_append, List.filterMap_append]

theorem contribValues_nil (pid : Int) (m : Metric) : contribValues [] pid m = [] := rfl

theorem contribValues_cons (v : Vote) (votes : List Vote) (pid : Int) (m : Metric) :
    contribValues (v :: votes) pid m
      = (if v.deleted = false ∧ v.problem_id = pid then (metricValue v m).toList else [])
        ++ contribValues votes pid m := by
  by_cases h : v.deleted = false ∧ v.problem_id = pid
  · have hb : (!v.deleted && v.problem_id == pid) = true := by
      simp [h.1, h.2]
    rw [if_pos h]
    simp only [contribValues, List.filter_cons, hb, if_true, List.filterMap_cons]
    cases hmv : metricValue v m <;> simp
  · have hb : (!v.deleted && v.problem_id == pid) = false := by
      rcases not_and_or.mp h with h1 | h1
      · have : v.deleted = true := by
          cases hd : v.deleted
          · exact absurd hd h1
          · rfl
        simp [this]
      · simp [h1]
    rw [if_neg h]
    simp only [contribValues, List.filter_cons, hb, List.nil_append]
    rfl

theorem contribValues_middle (l₁ l₂ : List Vote) (v : Vote) (pid : Int) (m : Metric) :
    contribValues (l₁ ++ v :: l₂) pid m
      = contribValues l₁ pid m
        ++ ((if v.deleted = false ∧ v.problem_id = pid then (metricValue v m).toList else [])
             ++ contribValues l₂ pid m) := by
  rw [contribValues_append, contribValues_cons]

/-- Python `x or y` when both branches hold the same value. -/
theorem orFalsy_self (a : Option ℚ) : orFalsy a a = a := by
  cases a with
  | none => rfl
  | some x =>
    by_cases h : x = 0
    · simp [orFalsy, h]
    · simp [orFalsy, h]

/-- For a ledger-shaped vote, the four arguments `upsert_vote` and
`_remove_votes_matching` pass to `_adjust_problem_stats` are exactly the
vote's stored metric values. -/
theorem metricArg_eq_metricValue (v : Vote) (hwf : WellFormedVote v) (m : Metric) :
    metricArg v.thinking v.implementation (orFalsy v.overall v.difficulty) v.quality m
      = metricValue v m := by
  obtain ⟨-, hdo⟩ := hwf
  cases m <;> simp [metricArg, metricValue, hdo, orFalsy_self]

/-! ## Adjustment characterisation -/

theorem blockOf_adjustProblem (p : Problem) (t i o qv : Option ℚ) (rm : Bool) (m : Metric) :
    blockOf (adjustProblem p t i o qv rm) m
      = (update_metric rm (metricArg t i o qv m) (fieldOf p m, blockOf p m)).2 := by
  cases m <;> rfl

theorem id_adjustProblem (p : Problem) (t i o qv : Option ℚ) (rm : Bool) :
    (adjustProblem p t i o qv rm).id = p.id := rfl

/-- Median recomputation only touches median fields: ids, summary fields
and blocks are all preserved, problem by problem. -/
theorem update_problem_medians_problems (ds : DataStore) (pid : Int) :
    ∀ pr ∈ (update_problem_medians ds pid).problems,
      ∃ p0 ∈ ds.problems, pr.id = p0.id
        ∧ (∀ m, blockOf pr m = blockOf p0 m)
        ∧ (∀ m, fieldOf pr m = fieldOf p0 m) := by
  unfold update_problem_medians
  split
  · intro pr hpr
    exact ⟨pr, hpr, rfl, fun m => rfl, fun m => rfl⟩
  · intro pr hpr
    simp only [List.mem_map] at hpr
    obtain ⟨p0, hp0, hpr⟩ := hpr
    refine ⟨p0, hp0, ?_, ?_, ?_⟩
    · rw [← hpr]
      split
      · split <;> rfl
      · rfl
    · intro m
      rw [← hpr]
      cases m <;> (split; · split <;> rfl
                   · rfl)
    · intro m
      rw [← hpr]
      cases m <;> (split; · split <;> rfl
                   · rfl)

/-- `_adjust_problem_stats` characterised per surviving problem: each
problem of the result arises from a problem of the input with the same
id; for the target problem the four blocks go through `update_metric`,
any other problem keeps its blocks. -/
theorem adjust_problem_stats_mem (ds : DataStore) (pid : Int) (t i o qv : Option ℚ)
    (rm : Bool) :
    ∀ pr ∈ (adjust_problem_stats ds pid t i o qv rm).problems,
      ∃ p0 ∈ ds.problems, pr.id = p0.id ∧
        ((p0.id = pid ∧ ∀ m, blockOf pr m
            = (update_metric rm (metricArg t i o qv m) (fieldOf p0 m, blockOf p0 m)).2)
         ∨ (p0.id ≠ pid ∧ ∀ m, blockOf pr m = blockOf p0 m)) := by
  unfold adjust_problem_stats
  split
  case h_1 hfind =>
    intro pr hpr
    refine ⟨pr, hpr, rfl, Or.inr ⟨?_, fun m => rfl⟩⟩
    intro hc
    have := List.find?_eq_none.mp hfind pr hpr
    simp [hc] at this
  case h_2 x hfind =>
    intro pr hpr
    obtain ⟨p1, hp1, hid1, hblk1, hfld1⟩ := update_problem_medians_problems _ pid pr hpr
    simp only [List.mem_map] at hp1
    obtain ⟨p0, hp0, hp1eq⟩ := hp1
    by_cases hc : (p0.id == pid) = true
    · have hceq : p0.id = pid := by simpa using hc
      have hp1eq2 : p1 = adjustProblem p0 t i o qv rm := by
        rw [← hp1eq, if_pos hc]
      refine ⟨p0, hp0, ?_, Or.inl ⟨hceq, ?_⟩⟩
      · rw [hid1, hp1eq2, id_adjustProblem]
      · intro m
        rw [hblk1 m, hp1eq2, blockOf_adjustProblem]
    · have hp1eq2 : p1 = p0 := by
        rw [← hp1eq, if_neg hc]
      refine ⟨p0, hp0, ?_, Or.inr ⟨by simpa using hc, ?_⟩⟩
      · rw [hid1, hp1eq2]
      · intro m
        rw [hblk1 m, hp1eq2]

/-! ## Vote list decomposition lemmas -/

/-- A successful `find?` splits the list around the first match, and
`updateFirst` replaces exactly that element. -/
theorem find?_updateFirst_decomp (pred : Vote → Bool) (f : Vote → Vote) :
    ∀ (votes : List Vote) (ex : Vote), votes.find? pred = some ex →
      ∃ l₁ l₂, votes = l₁ ++ ex :: l₂ ∧ (∀ a ∈ l₁, pred a = false)
        ∧ updateFirst pred f votes = l₁ ++ f ex :: l₂ := by
  intro votes
  induction votes with
  | nil => intro ex h; simp [List.find?] at h
  | cons v rest ih =>
    intro ex h
    cases hp : pred v with
    | true =>
      rw [List.find?_cons_of_pos _ hp] at h
      have hv : v = ex := by injection h
      subst hv
      exact ⟨[], rest, by simp, by simp, by simp [updateFirst, hp]⟩
    | false =>
      rw [List.find?_cons_of_neg _ (by simp [hp])] at h
      obtain ⟨l₁, l₂, heq, hl₁, hupd⟩ := ih ex h
      refine ⟨v :: l₁, l₂, by simp [heq], ?_, by simp [updateFirst, hp, hupd]⟩
      intro a ha
      rcases List.mem_cons.mp ha with rfl | ha2
      · exact hp
      · exact hl₁ a ha2

/-- Under pair uniqueness, the first pair match found is any given
member with that pair. -/
theorem find?_of_uniquePairs (u pid : Int) :
    ∀ (votes : List Vote), UniquePairs votes → ∀ ex ∈ votes,
      ex.user_id = u → ex.problem_id = pid →
      votes.find? (fun v => v.user_id == u && v.problem_id == pid) = some ex := by
  intro votes
  induction votes with
  | nil => intro _ ex hmem; cases hmem
  | cons y rest ih =>
    intro hu ex hmem hx hp
    rw [UniquePairs, List.pairwise_cons] at hu
    rcases List.mem_cons.mp hmem with rfl | hmem2
    · apply List.find?_cons_of_pos
      simp [hx, hp]
    · cases hpy : (y.user_id == u && y.problem_id == pid) with
      | false =>
        rw [List.find?_cons_of_neg _ (by simp [hpy])]
        exact ih hu.2 ex hmem2 hx hp
      | true =>
        exfalso
        have hr := hu.1 ex hmem2
        simp only [Bool.and_eq_true, beq_iff_eq] at hpy
        exact hr ⟨by rw [hpy.1, hx], by rw [hpy.2, hp]⟩

/-- Replacing the middle element by one with the same (user, problem)
pair preserves pair uniqueness. -/
theorem uniquePairs_replace (l₁ l₂ : List Vote) (ex upd : Vote)
    (hu : UniquePairs (l₁ ++ ex :: l₂)) (hid : upd.user_id = ex.user_id)
    (hpid : upd.problem_id = ex.problem_id) : UniquePairs (l₁ ++ upd :: l₂) := by
  rw [UniquePairs, List.pairwise_append] at hu ⊢
  obtain ⟨h1, h2, h12⟩ := hu
  rw [List.pairwise_cons] at h2 ⊢
  refine ⟨h1, ⟨?_, h2.2⟩, ?_⟩
  · intro b hb
    have := h2.1 b hb
    simpa [hid, hpid] using this
  · intro a ha b hb
    rcases List.mem_cons.mp hb with rfl | hb2
    · have := h12 a ha ex (List.mem_cons_self _ _)
      simpa [hid, hpid] using this
    · exact h12 a ha b (List.mem_cons.mpr (Or.inr hb2))

/-! ## Ledger invariant preservation -/

theorem contribValues_middle_in (l₁ l₂ : List Vote) (v : Vote) (pid : Int) (m : Metric)
    (hd : v.deleted = false) (hp : v.problem_id = pid) :
    contribValues (l₁ ++ v :: l₂) pid m
      = contribValues l₁ pid m ++ ((metricValue v m).toList ++ contribValues l₂ pid m) := by
  rw [contribValues_middle, if_pos ⟨hd, hp⟩]

theorem contribValues_middle_out (l₁ l₂ : List Vote) (v : Vote) (pid : Int) (m : Metric)
    (h : ¬(v.deleted = false ∧ v.problem_id = pid)) :
    contribValues (l₁ ++ v :: l₂) pid m
      = contribValues l₁ pid m ++ contribValues l₂ pid m := by
  rw [contribValues_middle, if_neg h]
  simp

theorem upsert_vote_inv (calcOv : ℚ → ℚ → ℚ) (ds : DataStore) (u pid : Int)
    (t i : ℚ) (q : Option ℚ) (c : String) (pub : Bool) (ts : Int)
    (h : LedgerInv ds) : LedgerInv (upsert_vote calcOv ds u pid t i q c pub ts).1 := by
  obtain ⟨hu, hwf, hcons⟩ := h
  cases hfind : ds.store.votes.find? (fun v => v.user_id == u && v.problem_id == pid) with
  | none =>
    simp only [upsert_vote, hfind]
    refine ⟨?_, ?_, ?_⟩
    · show UniquePairs (adjust_problem_stats _ _ _ _ _ _ _).store.votes
      rw [adjust_problem_stats_store]
      show List.Pairwise _ (ds.store.votes ++ [_])
      rw [List.pairwise_append]
      refine ⟨hu, List.pairwise_singleton _ _, ?_⟩
      intro a ha b hb
      simp only [List.mem_singleton] at hb
      subst hb
      intro hcontra
      have hnone := List.find?_eq_none.mp hfind a ha
      simp only [Bool.and_eq_true, beq_iff_eq, not_and] at hnone
      exact hnone (by simpa using hcontra.1) (by simpa using hcontra.2)
    · show ∀ v ∈ (adjust_problem_stats _ _ _ _ _ _ _).store.votes, WellFormedVote v
      rw [adjust_problem_stats_store]
      show ∀ v ∈ ds.store.votes ++ [_], WellFormedVote v
      intro v hv
      rcases List.mem_append.mp hv with hv1 | hv2
      · exact hwf v hv1
      · simp only [List.mem_singleton] at hv2
        subst hv2
        exact ⟨rfl, rfl⟩
    · intro pr hpr m
      obtain ⟨p0, hp0, hid, hcase⟩ :=
        adjust_problem_stats_mem _ pid (some t) (some i) (some (calcOv t i)) q false pr hpr
      show blockMatches _ (contribValues (adjust_problem_stats _ _ _ _ _ _ _).store.votes _ m)
      rw [adjust_problem_stats_store]
      show blockMatches _ (contribValues (ds.store.votes ++ [_]) pr.id m)
      rw [contribValues_append, contribValues_cons, contribValues_nil, List.append_nil]
      rcases hcase with ⟨hpe, hblk⟩ | ⟨hpe, hblk⟩
      · rw [hblk m, hid, hpe, if_pos ⟨rfl, rfl⟩]
        have hmv : metricArg (some t) (some i) (some (calcOv t i)) q m
            = metricValue
                { id := ds.store.next_vote_id, user_id := u, problem_id := pid,
                  thinking := some t, implementation := some i,
                  overall := some (calcOv t i), difficulty := some (calcOv t i),
                  quality := q, comment := c, public := pub, deleted := false,
                  accepted := true, score := 0, created_at := ts, updated_at := ts } m := by
          cases m <;> rfl
        rw [← hmv]
        have h0 := hcons p0 hp0 m
        rw [hpe] at h0
        exact blockMatches_add _ _ _ _ h0
      · have hneg : ¬((({ id := ds.store.next_vote_id, user_id := u, problem_id := pid,
                           thinking := some t, implementation := some i,
                           overall := some (calcOv t i), difficulty := some (calcOv t i),
                           quality := q, comment := c, public := pub, deleted := false,
                           accepted := true, score := 0, created_at := ts,
                           updated_at := ts } : Vote)).deleted = false
              ∧ (({ id := ds.store.next_vote_id, user_id := u, problem_id := pid,
                    thinking := some t, implementation := some i,
                    overall := some (calcOv t i), difficulty := some (calcOv t i),
                    quality := q, comment := c, public := pub, deleted := false,
                    accepted := true, score := 0, created_at := ts,
                    updated_at := ts } : Vote)).problem_id = p0.id) := by
          intro hcontra
          exact hpe (by simpa using hcontra.2.symm)
      -- blocks of untouched problems are measured against the old votes
        rw [hblk m, hid, if_neg hneg]
        simpa using hcons p0 hp0 m
  | some ex =>
    have hex_mem : ex ∈ ds.store.votes := List.mem_of_find?_eq_some hfind
    have hwx : WellFormedVote ex := hwf ex hex_mem
    have hpredb := List.find?_some hfind
    have hpred : ex.user_id = u ∧ ex.problem_id = pid := by
      simpa [Bool.and_eq_true, beq_iff_eq] using hpredb
    obtain ⟨l₁, l₂, hsplit, hl₁, hupd⟩ :=
      find?_updateFirst_decomp (fun v => v.user_id == u && v.problem_id == pid)
        (fun _ =>
          { ex with
            thinking := some t, implementation := some i,
            overall := some (calcOv t i), difficulty := some (calcOv t i),
            quality := q, comment := c, public := pub, deleted := false,
            accepted := true, score := ex.score, updated_at := ts })
        ds.store.votes ex hfind
    simp only [upsert_vote, hfind]
    refine ⟨?_, ?_, ?_⟩
    · show UniquePairs (adjust_problem_stats _ _ _ _ _ _ _).store.votes
      rw [adjust_problem_stats_store]
      show UniquePairs (updateFirst _ _ (adjust_problem_stats _ _ _ _ _ _ _).store.votes)
      rw [adjust_problem_stats_store]
      show UniquePairs (updateFirst _ _ ds.store.votes)
      rw [hupd]
      exact uniquePairs_replace l₁ l₂ ex _ (by rw [← hsplit]; exact hu) rfl rfl
    · show ∀ v ∈ (adjust_problem_stats _ _ _ _ _ _ _).store.votes, WellFormedVote v
      rw [adjust_problem_stats_store]
      show ∀ v ∈ updateFirst _ _ (adjust_problem_stats _ _ _ _ _ _ _).store.votes,
        WellFormedVote v
      rw [adjust_problem_stats_store]
      show ∀ v ∈ updateFirst _ _ ds.store.votes, WellFormedVote v
      rw [hupd]
      intro v hv
      rcases List.mem_append.mp hv with hv1 | hv2
      · refine hwf v ?_
        rw [hsplit]
        exact List.mem_append.mpr (Or.inl hv1)
      · rcases List.mem_cons.mp hv2 with rfl | hv3
        · exact ⟨rfl, rfl⟩
        · refine hwf v ?_
          rw [hsplit]
          exact List.mem_append.mpr (Or.inr (List.mem_cons.mpr (Or.inr hv3)))
    · intro pr hpr m
      obtain ⟨p1, hp1, hid2, hcase2⟩ :=
        adjust_problem_stats_mem _ pid (some t) (some i) (some (calcOv t i)) q false pr hpr
      obtain ⟨p0, hp0, hid1, hcase1⟩ :=
        adjust_problem_stats_mem ds pid ex.thinking ex.implementation
          (orFalsy ex.overall ex.difficulty) ex.quality true p1 hp1
      have h0 := hcons p0 hp0 m
      show blockMatches _ (contribValues (adjust_problem_stats _ _ _ _ _ _ _).store.votes _ m)
      rw [adjust_problem_stats_store]
      show blockMatches _
        (contribValues (updateFirst _ _ (adjust_problem_stats _ _ _ _ _ _ _).store.votes) pr.id m)
      rw [adjust_problem_stats_store]
      show blockMatches _ (contribValues (updateFirst _ _ ds.store.votes) pr.id m)
      rw [hupd]
      set upd : Vote :=
        { ex with
          thinking := some t, implementation := some i,
          overall := some (calcOv t i), difficulty := some (calcOv t i),
          quality := q, comment := c, public := pub, deleted := false,
          accepted := true, score := ex.score, updated_at := ts } with hupddef
      have hupd_del : upd.deleted = false := by rw [hupddef]
      have hupd_pid : upd.problem_id = pid := by rw [hupddef]; exact hpred.2
      rcases hcase2 with ⟨hpe2, hblk2⟩ | ⟨hpe2, hblk2⟩ <;>
        rcases hcase1 with ⟨hpe1, hblk1⟩ | ⟨hpe1, hblk1⟩
      · -- the target problem: remove the old contribution, add the new one
        have hpr_pid : pr.id = pid := hid2.trans hpe2
        rw [hpr_pid, contribValues_middle_in l₁ l₂ upd pid m hupd_del hupd_pid, hblk2 m]
        rw [hpe1] at h0
        rw [hsplit, contribValues_middle_in l₁ l₂ ex pid m hwx.1 hpred.2] at h0
        have h1m := hblk1 m
        rw [metricArg_eq_metricValue ex hwx m] at h1m
        have hrm := blockMatches_remove (fieldOf p0 m) (blockOf p0 m)
          (contribValues l₁ pid m) (contribValues l₂ pid m) (metricValue ex m)
          (by rw [List.append_assoc]; exact h0)
        rw [← h1m] at hrm
        have hadd := blockMatches_add (fieldOf p1 m) (blockOf p1 m)
          (contribValues l₁ pid m ++ contribValues l₂ pid m)
          (metricArg (some t) (some i) (some (calcOv t i)) q m) hrm
        have hmv : metricArg (some t) (some i) (some (calcOv t i)) q m
            = metricValue upd m := by
          rw [hupddef]
          cases m <;> rfl
        rw [hmv]
        rw [hmv] at hadd
        refine blockMatches_of_perm ?_ hadd
        rw [List.append_assoc]
        exact List.Perm.append_left _ List.perm_append_comm
      · exact absurd (hid1.symm.trans hpe2) hpe1
      · exact absurd (hid1.trans hpe1) hpe2
      · -- an untouched problem: neither the old nor the new row contribute
        have hpr_id : pr.id = p0.id := hid2.trans hid1
        have hnotpid : pr.id ≠ pid := by rw [hid2]; exact hpe2
        have hnew : ¬(upd.deleted = false ∧ upd.problem_id = pr.id) := by
          intro hcontra
          exact hnotpid (hcontra.2.symm.trans hupd_pid)
        rw [contribValues_middle_out l₁ l₂ upd pr.id m hnew, hblk2 m, hblk1 m, hpr_id]
        have hold : ¬(ex.deleted = false ∧ ex.problem_id = p0.id) := by
          intro hcontra
          exact hpe1 (hcontra.2.symm.trans hpred.2)
        rw [hsplit, contribValues_middle_out l₁ l₂ ex p0.id m hold] at h0
        exact h0

/-- Along the removal loop, the blocks stay in agreement with the
contributions of the votes not (yet) removed. -/
theorem removeLoop_blocks (pred : Vote → Bool) :
    ∀ (votes : List Vote) (dsa : DataStore) (remaining : List Vote)
      (removed : List Int) (cleared : Int),
      (∀ v ∈ votes, WellFormedVote v) →
      (∀ pr ∈ dsa.problems, ∀ m, blockMatches (blockOf pr m)
          (contribValues (remaining ++ votes) pr.id m)) →
      ∀ pr ∈ (removeLoop pred dsa votes remaining removed cleared).1.problems, ∀ m,
        blockMatches (blockOf pr m)
          (contribValues (remaining ++ votes.filter fun v => !pred v) pr.id m) := by
  intro votes
  induction votes with
  | nil =>
    intro dsa remaining removed cleared hwf hm pr hpr m
    simp only [removeLoop] at hpr
    simpa using hm pr hpr m
  | cons v rest ih =>
    intro dsa remaining removed cleared hwf hm
    have hwfv := hwf v (List.mem_cons_self _ _)
    cases hp : pred v with
    | false =>
      rw [removeLoop_cons_keep pred dsa v rest remaining removed cleared hp]
      intro pr hpr m
      have hres := ih dsa (remaining ++ [v]) removed cleared
        (fun w hw => hwf w (List.mem_cons.mpr (Or.inr hw)))
        (fun pr2 hpr2 m2 => by
          have h2 := hm pr2 hpr2 m2
          simpa [List.append_assoc] using h2)
        pr hpr m
      have hfl : (v :: rest).filter (fun w => !pred w) = v :: rest.filter (fun w => !pred w) := by
        simp [List.filter_cons, hp]
      rw [hfl]
      simpa [List.append_assoc] using hres
    | true =>
      have hdel : v.deleted = false := hwfv.1
      rw [removeLoop_cons_live pred dsa v rest remaining removed cleared hp hdel]
      have hfl : (v :: rest).filter (fun w => !pred w) = rest.filter (fun w => !pred w) := by
        simp [List.filter_cons, hp]
      rw [hfl]
      refine ih _ remaining (removed ++ [v.id]) (cleared + 1)
        (fun w hw => hwf w (List.mem_cons.mpr (Or.inr hw))) ?_
      intro pr2 hpr2 m2
      obtain ⟨p0, hp0, hid, hcase⟩ := adjust_problem_stats_mem dsa v.problem_id
        v.thinking v.implementation (orFalsy v.overall v.difficulty) v.quality true pr2 hpr2
      have h0 := hm p0 hp0 m2
      rcases hcase with ⟨hpe, hblk⟩ | ⟨hpe, hblk⟩
      · rw [hblk m2, metricArg_eq_metricValue v hwfv m2, hid, hpe, contribValues_append]
        rw [hpe, contribValues_middle_in remaining rest v v.problem_id m2 hdel rfl] at h0
        exact blockMatches_remove _ _ _ _ _ (by rw [List.append_assoc]; exact h0)
      · rw [hblk m2, hid, contribValues_append]
        rw [contribValues_middle_out remaining rest v p0.id m2 (fun hc => hpe hc.2.symm)] at h0
        exact h0

/-- Pieces of `_remove_votes_matching`'s result state. -/
theorem remove_votes_matching_problems (ds : DataStore) (pred : Vote → Bool) :
    (remove_votes_matching ds pred).1.problems
        = (removeLoop pred ds ds.store.votes [] [] 0).1.problems
    ∨ (remove_votes_matching ds pred).1 = ds := by
  unfold remove_votes_matching
  by_cases he : ds.store.votes.isEmpty
  · simp [he]
  · have heb : ds.store.votes.isEmpty = false := by
      cases hb : ds.store.votes.isEmpty
      · rfl
      · exact absurd hb he
    simp only [heb, if_false, Bool.false_eq_true]
    by_cases hre : ((removeLoop pred ds ds.store.votes [] [] 0).2.2.1).isEmpty
    · simp only [hre, if_true]
      left; trivial
    · have hreb : ((removeLoop pred ds ds.store.votes [] [] 0).2.2.1).isEmpty = false := by
        cases hb : ((removeLoop pred ds ds.store.votes [] [] 0).2.2.1).isEmpty
        · rfl
        · exact absurd hb hre
      simp only [hreb, if_false, Bool.false_eq_true]
      left; trivial

theorem remove_votes_matching_inv (ds : DataStore) (pred : Vote → Bool)
    (h : LedgerInv ds) : LedgerInv (remove_votes_matching ds pred).1 := by
  obtain ⟨hu, hwf, hcons⟩ := h
  have hvotes := remove_votes_matching_votes ds pred
  refine ⟨?_, ?_, ?_⟩
  · show UniquePairs _
    rw [hvotes]
    exact List.Pairwise.sublist (List.filter_sublist _) hu
  · intro v hv
    rw [hvotes] at hv
    exact hwf v (List.mem_of_mem_filter hv)
  · intro pr hpr m
    rw [hvotes]
    rcases remove_votes_matching_problems ds pred with hc | hc
    · rw [hc] at hpr
      have hres := removeLoop_blocks pred ds.store.votes ds [] [] 0 hwf
        (fun pr2 hpr2 m2 => by simpa using hcons pr2 hpr2 m2) pr hpr m
      simpa using hres
    · rw [hc] at hpr
      have hkeep : ds.store.votes.filter (fun v => !pred v) = ds.store.votes := by
        rw [← hvotes, hc]
      rw [hkeep]
      exact hcons pr hpr m

theorem mark_vote_deleted_inv (ds : DataStore) (vid : Int)
    (h : LedgerInv ds) : LedgerInv (mark_vote_deleted ds vid).1 :=
  remove_votes_matching_inv ds (fun v => v.id == vid) h

/-- Every upsert/delete sequence preserves the ledger invariant. -/
theorem applyOps_inv (calcOv : ℚ → ℚ → ℚ) (ops : List LedgerOp) :
    ∀ ds : DataStore, LedgerInv ds → LedgerInv (applyOps calcOv ds ops) := by
  induction ops with
  | nil => intro ds h; exact h
  | cons op rest ih =>
    intro ds h
    show LedgerInv (applyOps calcOv (applyOp calcOv ds op) rest)
    refine ih _ ?_
    cases op with
    | upsert u p t i q c pub ts => exact upsert_vote_inv calcOv ds u p t i q c pub ts h
    | delete vid => exact mark_vote_deleted_inv ds vid h

/-! ## Claim C3: one row per (user, problem) pair -/

/-- Claim C3: from any state satisfying the ledger invariant, (i) every
sequence of upsert and delete operations preserves the invariant — in
particular at most one vote row per (user, problem) pair ever exists
and all Aggregate Blocks reflect exactly the current rows' values; (ii)
an upsert for a pair that already has a row rewrites that row in place:
the row count is unchanged and the returned row keeps the old id and
creation time while carrying the new field values and the new
`updated_at`; (iii) after any such sequence, every problem's per-metric
count equals the number of contributing non-deleted votes and never
exceeds the number of vote rows for that problem (one per pair). -/
theorem c3_upsert_one_row_per_pair (calcOv : ℚ → ℚ → ℚ) (ds : DataStore)
    (h : LedgerInv ds) :
    (∀ ops, LedgerInv (applyOps calcOv ds ops))
    ∧ (∀ u pid t i q c pub ts ex, ex ∈ ds.store.votes →
        ex.user_id = u → ex.problem_id = pid →
        (upsert_vote calcOv ds u pid t i q c pub ts).1.store.votes.length
            = ds.store.votes.length
        ∧ ((upsert_vote calcOv ds u pid t i q c pub ts).2
              ∈ (upsert_vote calcOv ds u pid t i q c pub ts).1.store.votes)
        ∧ (upsert_vote calcOv ds u pid t i q c pub ts).2.id = ex.id
        ∧ (upsert_vote calcOv ds u pid t i q c pub ts).2.created_at = ex.created_at
        ∧ (upsert_vote calcOv ds u pid t i q c pub ts).2.thinking = some t
        ∧ (upsert_vote calcOv ds u pid t i q c pub ts).2.implementation = some i
        ∧ (upsert_vote calcOv ds u pid t i q c pub ts).2.overall = some (calcOv t i)
        ∧ (upsert_vote calcOv ds u pid t i q c pub ts).2.quality = q
        ∧ (upsert_vote calcOv ds u pid t i q c pub ts).2.updated_at = ts)
    ∧ (∀ ops pr m, pr ∈ (applyOps calcOv ds ops).problems →
        (blockOf pr m).count
            = ((contribValues (applyOps calcOv ds ops).store.votes pr.id m).length : Int)
        ∧ (blockOf pr m).count
            ≤ (((applyOps calcOv ds ops).store.votes.filter
                  fun v => v.problem_id == pr.id).length : Int)) := by
  refine ⟨fun ops => applyOps_inv calcOv ops ds h, ?_, ?_⟩
  · intro u pid t i q c pub ts ex hmem hxu hxp
    have hfind : ds.store.votes.find? (fun v => v.user_id == u && v.problem_id == pid)
        = some ex := find?_of_uniquePairs u pid ds.store.votes h.1 ex hmem hxu hxp
    obtain ⟨l₁, l₂, hsplit, hl₁, hupd⟩ :=
      find?_updateFirst_decomp (fun v => v.user_id == u && v.problem_id == pid)
        (fun _ =>
          { ex with
            thinking := some t, implementation := some i,
            overall := some (calcOv t i), difficulty := some (calcOv t i),
            quality := q, comment := c, public := pub, deleted := false,
            accepted := true, score := ex.score, updated_at := ts })
        ds.store.votes ex hfind
    simp only [upsert_vote, hfind]
    refine ⟨?_, ?_, by trivial, by trivial, by trivial, by trivial, by trivial, by trivial, by trivial⟩
    · rw [adjust_problem_stats_store]
      show (updateFirst _ _ (adjust_problem_stats _ _ _ _ _ _ _).store.votes).length = _
      rw [adjust_problem_stats_store]
      show (updateFirst _ _ ds.store.votes).length = _
      rw [hupd, hsplit]
      simp
    · rw [adjust_problem_stats_store]
      show _ ∈ updateFirst _ _ (adjust_problem_stats _ _ _ _ _ _ _).store.votes
      rw [adjust_problem_stats_store]
      show _ ∈ updateFirst _ _ ds.store.votes
      rw [hupd]
      exact List.mem_append.mpr (Or.inr (List.mem_cons_self _ _))
  · intro ops pr m hpr
    have hfin := applyOps_inv calcOv ops ds h
    have hbm := (hfin.2.2) pr hpr m
    refine ⟨hbm.1, ?_⟩
    rw [hbm.1]
    have h1 : (contribValues (applyOps calcOv ds ops).store.votes pr.id m).length
        ≤ ((applyOps calcOv ds ops).store.votes.filter
            fun v => v.problem_id == pr.id).length := by
      unfold contribValues
      refine le_trans (List.length_filterMap_le _ _) ?_
      rw [← List.filter_filter]
      exact List.length_filter_le _ _
    exact_mod_cast h1

/-- The empty one-problem ledger satisfies the invariant. -/
theorem ledgerInv_emptyDS : LedgerInv emptyDS := by decide

/-- The one-vote ledger satisfies the invariant. -/
theorem ledgerInv_oneVoteDS : LedgerInv oneVoteDS := by
  refine ⟨by decide, by decide, ?_⟩
  intro p hp m
  have hp1 : p = oneVoteProblem := by
    simpa [oneVoteDS] using hp
  subst hp1
  cases m <;>
    refine ⟨?_, ?_, ?_⟩ <;>
      simp [blockOf, oneVoteProblem, oneVoteDS, zeroBlock, zeroField, contribValues, v71,
            mkVote, metricValue] <;>
        norm_num

/-- Claim C3 witness: the invariant holds for the empty one-problem
ledger, is preserved across a concrete upsert–upsert–delete sequence,
and the in-place-update clause applies to a concrete state with one
existing row. -/
theorem c3_upsert_one_row_per_pair_witness :
    LedgerInv emptyDS
    ∧ LedgerInv (applyOps (fun a b => (a + b) / 2) emptyDS
        [LedgerOp.upsert 7 1 1000 2000 none "" false 5,
         LedgerOp.upsert 7 1 1200 2200 (some 3) "x" true 6,
         LedgerOp.delete 1])
    ∧ LedgerInv oneVoteDS
    ∧ (upsert_vote (fun a b => (a + b) / 2) oneVoteDS 7 1 1100 2100 none "" false 9).1.store.votes.length
        = oneVoteDS.store.votes.length := by
  refine ⟨ledgerInv_emptyDS, ?_, ledgerInv_oneVoteDS, ?_⟩
  · exact (c3_upsert_one_row_per_pair (fun a b => (a + b) / 2) emptyDS ledgerInv_emptyDS).1
      [LedgerOp.upsert 7 1 1000 2000 none "" false 5,
       LedgerOp.upsert 7 1 1200 2200 (some 3) "x" true 6,
       LedgerOp.delete 1]
  · exact ((c3_upsert_one_row_per_pair (fun a b => (a + b) / 2) oneVoteDS ledgerInv_oneVoteDS).2.1
      7 1 1100 2100 none "" false 9 v71 (by decide) (by decide) (by decide)).1

/-- Claim C4 witness: deleting a missing vote, and deleting the same
vote twice, on a concrete store. -/
theorem c4_delete_vote_idempotent_witness :
    (∀ v ∈ emptyDS.store.votes, v.id ≠ (5 : Int))
    ∧ mark_vote_deleted emptyDS 5 = (emptyDS, false)
    ∧ mark_vote_deleted (mark_vote_deleted emptyDS 5).1 5
        = ((mark_vote_deleted emptyDS 5).1, false) :=
  ⟨by decide, (c4_delete_vote_idempotent emptyDS 5).1 (by decide),
   (c4_delete_vote_idempotent emptyDS 5).2⟩

/-- Claim C6 witness: a store with one vote and one report against it. -/
theorem c6_no_orphan_reports_witness :
    NoOrphans reportDS
    ∧ NoOrphans (mark_vote_deleted reportDS 1).1
    ∧ NoOrphans (clear_votes_for_user reportDS 7).1
    ∧ NoOrphans (mark_votes_deleted_bulk reportDS [some 1]).1 :=
  ⟨by decide, (c6_no_orphan_reports reportDS 1 7 [some 1] (by decide)).1,
   (c6_no_orphan_reports reportDS 1 7 [some 1] (by decide)).2.1,
   (c6_no_orphan_reports reportDS 1 7 [some 1] (by decide)).2.2⟩

/-- Claim C7 witness: reporting a missing vote id on a concrete store
fails with "Vote not found" and leaves the store unchanged. -/
theorem c7_report_vote_spec_witness :
    (0 : Int) < 2 ∧ (0 : Int) < 9
    ∧ oneVoteDS.store.votes.find? (fun v => v.id == 2) = none
    ∧ report_vote_core oneVoteDS (some 2) (some 9) 42
        = (oneVoteDS, false, some "Vote not found") :=
  ⟨by decide, by decide, by decide,
   (c7_report_vote_spec oneVoteDS 2 9 42 (by decide) (by decide)).1 (by decide)⟩

/-- Claim C8 witness: an add–remove–remove sequence from the zero
block. -/
theorem c8_block_count_floor_and_reset_witness :
    (0 : Int) ≤ ((zeroField, zeroBlock) : MetricField × Block).2.count
    ∧ (0 ≤ (([BlockOp.add 2, BlockOp.remove 2, BlockOp.remove 2]).foldl applyBlockOp
          (zeroField, zeroBlock)).2.count
       ∧ (([BlockOp.add 2, BlockOp.remove 2, BlockOp.remove 2] : List BlockOp) ≠ [] →
          (([BlockOp.add 2, BlockOp.remove 2, BlockOp.remove 2]).foldl applyBlockOp
              (zeroField, zeroBlock)).2.count = 0 →
          (([BlockOp.add 2, BlockOp.remove 2, BlockOp.remove 2]).foldl applyBlockOp
              (zeroField, zeroBlock)).1.avg = none
          ∧ (([BlockOp.add 2, BlockOp.remove 2, BlockOp.remove 2]).foldl applyBlockOp
              (zeroField, zeroBlock)).1.sdsq = none
          ∧ (([BlockOp.add 2, BlockOp.remove 2, BlockOp.remove 2]).foldl applyBlockOp
              (zeroField, zeroBlock)).2.sum = 0
          ∧ (([BlockOp.add 2, BlockOp.remove 2, BlockOp.remove 2]).foldl applyBlockOp
              (zeroField, zeroBlock)).2.sum_sq = 0)) :=
  ⟨by decide,
   c8_block_count_floor_and_reset (zeroField, zeroBlock)
     [BlockOp.add 2, BlockOp.remove 2, BlockOp.remove 2] (by decide)⟩

/-- Claim C9 witness: deleting the only vote of a concrete process
state. -/
theorem c9_hard_delete_witness :
    (mark_vote_deleted_proc onePS 1).2 = true
    ∧ (∀ v ∈ (mark_vote_deleted_proc onePS 1).1.ds.store.votes, v.id ≠ (1 : Int))
    ∧ find_vote_by_id_proc (mark_vote_deleted_proc onePS 1).1 (some 1) = none :=
  ⟨by decide, (c9_hard_delete onePS 1 (by decide)).1,
   (c9_hard_delete onePS 1 (by decide)).2⟩

/-- Claim C10 witness: one convertible id naming an existing vote plus
one unconvertible entry. -/
theorem c10_bulk_delete_invalid_id_noop_witness :
    (none ∈ [some (1 : Int), none])
    ∧ mark_votes_deleted_bulk oneVoteDS [some 1, none] = (oneVoteDS, 0) :=
  ⟨by decide, c10_bulk_delete_invalid_id_noop oneVoteDS [some 1, none] (by decide)⟩

/-! ## Analysis of the bisection solver -/

/-- The bisection decision on diagonal inputs: the product probability
at the midpoint `m` exceeds one half exactly when `m` lies above
`diag_equilibrium x`. -/
theorem diag_decision (x m : ℝ) :
    elo_win_probability m x * elo_win_probability m x > 1 / 2
      ↔ diag_equilibrium x < m := by
  have hc : 0 < (10 : ℝ) ^ ((x - m) / 400) := Real.rpow_pos_of_pos (by norm_num) _
  have h1c : 0 < 1 + (10 : ℝ) ^ ((x - m) / 400) := by linarith
  have hs0 : (0 : ℝ) < Real.sqrt 2 := Real.sqrt_pos.mpr (by norm_num)
  have hsq : Real.sqrt 2 ^ 2 = 2 := Real.sq_sqrt (by norm_num)
  have hs1 : (1 : ℝ) < Real.sqrt 2 := by nlinarith
  have hinv : Real.sqrt 2 - 1 = (1 + Real.sqrt 2)⁻¹ := by
    have hpos : (0 : ℝ) < 1 + Real.sqrt 2 := by linarith
    field_simp
    nlinarith
  have h1 : elo_win_probability m x * elo_win_probability m x
      = 1 / (1 + (10 : ℝ) ^ ((x - m) / 400)) ^ 2 := by
    unfold elo_win_probability
    rw [div_mul_div_comm, one_mul, sq]
  have step1 : (1 / 2 < 1 / (1 + (10 : ℝ) ^ ((x - m) / 400)) ^ 2)
      ↔ (1 + (10 : ℝ) ^ ((x - m) / 400)) ^ 2 < 2 :=
    one_div_lt_one_div (by norm_num) (by positivity)
  have step2 : (1 + (10 : ℝ) ^ ((x - m) / 400)) ^ 2 < 2
      ↔ 1 + (10 : ℝ) ^ ((x - m) / 400) < Real.sqrt 2 := by
    constructor
    · intro hlt
      by_contra hge
      push_neg at hge
      nlinarith
    · intro hlt
      nlinarith
  have step3 : 1 + (10 : ℝ) ^ ((x - m) / 400) < Real.sqrt 2
      ↔ (10 : ℝ) ^ ((x - m) / 400) < Real.sqrt 2 - 1 := by
    constructor <;> intro <;> linarith
  have hrpos : (0 : ℝ) < Real.sqrt 2 - 1 := by linarith
  have step4 : (10 : ℝ) ^ ((x - m) / 400) < Real.sqrt 2 - 1
      ↔ (x - m) / 400 < Real.logb 10 (Real.sqrt 2 - 1) := by
    nth_rewrite 1 [show Real.sqrt 2 - 1
        = (10 : ℝ) ^ (Real.logb 10 (Real.sqrt 2 - 1)) from
      (Real.rpow_logb (by norm_num) (by norm_num) hrpos).symm]
    exact Real.rpow_lt_rpow_left_iff (by norm_num)
  have step5 : Real.logb 10 (Real.sqrt 2 - 1) = -Real.logb 10 (1 + Real.sqrt 2) := by
    rw [hinv, Real.logb_inv]
  have step6 : (x - m) / 400 < Real.logb 10 (Real.sqrt 2 - 1)
      ↔ diag_equilibrium x < m := by
    rw [step5]
    unfold diag_equilibrium
    constructor <;> intro <;> linarith
  rw [gt_iff_lt, h1]
  exact step1.trans (step2.trans (step3.trans (step4.trans step6)))

/-- The bisection bracket never loses the diagonal equilibrium. -/
theorem bisect_reaches_bracket (x : ℝ) (hlow : 1 ≤ diag_equilibrium x)
    (hhigh : diag_equilibrium x ≤ 8000) :
    ∀ s, Relation.ReflTransGen (bisect_step x x) (1, 8000) s →
      s.1 ≤ diag_equilibrium x ∧ diag_equilibrium x ≤ s.2 := by
  intro s h
  induction h with
  | refl => exact ⟨hlow, hhigh⟩
  | tail hab hstep ih =>
    obtain ⟨hw, hcase⟩ := hstep
    rcases hcase with ⟨hdec, rfl⟩ | ⟨hdec, rfl⟩
    · exact ⟨ih.1, le_of_lt ((diag_decision x _).mp hdec)⟩
    · have := not_lt.mp fun hc => hdec ((diag_decision x _).mpr hc)
      exact ⟨this, ih.2⟩

/-- From any interval wider than eps, one bisection step is available
and halves the width. -/
theorem bisect_step_exists (t i : ℝ) (s : ℝ × ℝ) (hw : 1 / 10000 < s.2 - s.1) :
    ∃ s', bisect_step t i s s' ∧ s'.2 - s'.1 = (s.2 - s.1) / 2 := by
  by_cases hdec : elo_win_probability ((s.1 + s.2) / 2) t
      * elo_win_probability ((s.1 + s.2) / 2) i > 1 / 2
  · exact ⟨(s.1, (s.1 + s.2) / 2), ⟨hw, Or.inl ⟨hdec, rfl⟩⟩, by simp; ring⟩
  · exact ⟨((s.1 + s.2) / 2, s.2), ⟨hw, Or.inr ⟨hdec, rfl⟩⟩, by simp; ring⟩

/-- The loop terminates: any interval of width at most `eps·2^k`
reaches a state of width at most `eps`. -/
theorem bisect_terminates (t i : ℝ) :
    ∀ (k : ℕ) (s : ℝ × ℝ), s.2 - s.1 ≤ (1 / 10000) * 2 ^ k →
      ∃ s', Relation.ReflTransGen (bisect_step t i) s s'
        ∧ s'.2 - s'.1 ≤ 1 / 10000 := by
  intro k
  induction k with
  | zero =>
    intro s h
    exact ⟨s, Relation.ReflTransGen.refl, by simpa using h⟩
  | succ k ih =>
    intro s h
    by_cases hw : 1 / 10000 < s.2 - s.1
    · obtain ⟨s1, hstep, hwidth⟩ := bisect_step_exists t i s hw
      obtain ⟨s2, hrtg, hfin⟩ := ih s1 (by
        rw [hwidth]
        rw [pow_succ] at h
        linarith)
      exact ⟨s2, Relation.ReflTransGen.head hstep hrtg, hfin⟩
    · exact ⟨s, Relation.ReflTransGen.refl, not_lt.mp hw⟩

/-- `_calc_overall` always produces a result. -/
theorem calc_overall_total (t i : ℝ) : ∃ res, calc_overall_rel t i res := by
  obtain ⟨s', hrtg, hfin⟩ := bisect_terminates t i 27 (1, 8000) (by norm_num)
  refine ⟨s'.1, s'.1, s'.2, ?_, hfin, rfl⟩
  rw [Prod.mk.eta]
  exact hrtg

/-- Basic bounds on `log₁₀(1 + √2)`. -/
theorem logb_one_add_sqrt_two_bounds :
    1 / 4 < Real.logb 10 (1 + Real.sqrt 2)
      ∧ Real.logb 10 (1 + Real.sqrt 2) < 1 := by
  have hs0 : (0 : ℝ) < Real.sqrt 2 := Real.sqrt_pos.mpr (by norm_num)
  have hsq : Real.sqrt 2 ^ 2 = 2 := Real.sq_sqrt (by norm_num)
  have hs1 : (1 : ℝ) < Real.sqrt 2 := by nlinarith
  have hs2 : Real.sqrt 2 < 2 := by nlinarith
  constructor
  · have h16 : (10 : ℝ) < 2 ^ (4 : ℕ) := by norm_num
    have hlt : Real.logb 10 10 < Real.logb 10 (2 ^ (4 : ℕ)) :=
      Real.logb_lt_logb (by norm_num) (by norm_num) h16
    rw [Real.logb_self_eq_one (by norm_num), Real.logb_pow] at hlt
    have hmono : Real.logb 10 2 ≤ Real.logb 10 (1 + Real.sqrt 2) :=
      Real.logb_le_logb_of_le (by norm_num) (by norm_num) (by linarith)
    push_cast at hlt
    linarith
  · have hlt : Real.logb 10 (1 + Real.sqrt 2) < Real.logb 10 10 :=
      Real.logb_lt_logb (by norm_num) (by linarith) (by linarith)
    rwa [Real.logb_self_eq_one (by norm_num)] at hlt

/-- On diagonal inputs in the rating domain, the bisection result is
within eps of `diag_equilibrium`. -/
theorem diag_bisect_dist (x res : ℝ) (h8 : 800 ≤ x) (h35 : x ≤ 3500)
    (h : calc_overall_rel x x res) :
    |res - diag_equilibrium x| ≤ 1 / 10000 := by
  obtain ⟨L, R, hrtg, hwid, rfl⟩ := h
  obtain ⟨hb1, hb2⟩ := logb_one_add_sqrt_two_bounds
  have hlow : 1 ≤ diag_equilibrium x := by unfold diag_equilibrium; nlinarith
  have hhigh : diag_equilibrium x ≤ 8000 := by unfold diag_equilibrium; nlinarith
  have hbr := bisect_reaches_bracket x hlow hhigh (res, R) hrtg
  have h1 : res ≤ diag_equilibrium x := hbr.1
  have h2 : diag_equilibrium x ≤ R := hbr.2
  rw [abs_le]
  exact ⟨by linarith, by linarith⟩

/-- Claim C2 counterexample: the claim says `ComputeOverall(1500, 1500)`
is within `1e-4` of 1500.  The bisection always produces a result on
`(1500, 1500)`, and every such result lies within eps of
`1500 + 400·log₁₀(1+√2) ≈ 1653.11`, hence more than `1e-4` away from
1500 — `ComputeOverall` is not idempotent. -/
theorem c2_not_idempotent_counterexample :
    (∃ res, calc_overall_rel 1500 1500 res)
    ∧ ∀ res, calc_overall_rel 1500 1500 res → ¬|res - 1500| ≤ 1 / 10000 := by
  refine ⟨calc_overall_total 1500 1500, ?_⟩
  intro res h habs
  obtain ⟨hb1, hb2⟩ := logb_one_add_sqrt_two_bounds
  obtain ⟨L, R, hrtg, hwid, rfl⟩ := h
  have hlow : 1 ≤ diag_equilibrium 1500 := by unfold diag_equilibrium; nlinarith
  have hhigh : diag_equilibrium 1500 ≤ 8000 := by unfold diag_equilibrium; nlinarith
  have hbr := bisect_reaches_bracket 1500 hlow hhigh (res, R) hrtg
  have heq : diag_equilibrium 1500 = 1500 + 400 * Real.logb 10 (1 + Real.sqrt 2) := rfl
  rw [abs_le] at habs
  have h2 : diag_equilibrium 1500 ≤ R := hbr.2
  have hres : diag_equilibrium 1500 ≤ res + 1 / 10000 := by linarith
  rw [heq] at hres
  linarith [habs.2]

/-- Claim C2 (amended): on the diagonal the solver is a translation by
`400·log₁₀(1+√2) ≈ 153.11`, not the identity: for every rating `x` in
the valid domain `[800, 3500]`, every result of `ComputeOverall(x, x)`
equals `x + 400·log₁₀(1+√2)` within the `1e-4` solver tolerance (so
`ComputeOverall(1500, 1500) ≈ 1653.11`, not 1500). -/
theorem c2_overall_diagonal_translation (x res : ℝ) (h8 : 800 ≤ x) (h35 : x ≤ 3500)
    (h : calc_overall_rel x x res) :
    |res - (x + 400 * Real.logb 10 (1 + Real.sqrt 2))| ≤ 1 / 10000 :=
  diag_bisect_dist x res h8 h35 h

/-- Claim C2 (amended) witness at `x = 1500`. -/
theorem c2_overall_diagonal_translation_witness :
    (800 : ℝ) ≤ 1500 ∧ (1500 : ℝ) ≤ 3500
    ∧ ∃ res, calc_overall_rel 1500 1500 res
        ∧ |res - (1500 + 400 * Real.logb 10 (1 + Real.sqrt 2))| ≤ 1 / 10000 := by
  refine ⟨by norm_num, by norm_num, ?_⟩
  obtain ⟨res, hres⟩ := calc_overall_total 1500 1500
  exact ⟨res, hres,
    c2_overall_diagonal_translation 1500 res (by norm_num) (by norm_num) hres⟩

end USACO
